import Mathlib

/-!
Verification of the plant-backend search federation / local cache core.

Shallow embedding of `src/services/plantSearch` (normalizer, similarity
scorer, access-token codec, entity store, statistics recorder, federation
orchestrator) over `List Char` strings, `Nat` counters and `Rat` for
JavaScript floating-point arithmetic.  Each definition mirrors one source
function; theorems settle the specification claims.
-/

namespace PlantBackend

/-! ### JavaScript character classes (ASCII fragment)

`\s`, `\w`, `[^\w\s-]` from the regexes in `normalizeQuery`
(`mockProvider.ts`, `normalizeQuery`).  The model covers the ASCII range;
all inputs exercised by the claims are ASCII. -/

def isSpaceC (c : Char) : Bool :=
  c = ' ' || c = '\t' || c = '\n' || c = '\r' || c = '\x0b' || c = '\x0c'

def isDigitC (c : Char) : Bool :=
  '0' ≤ c && c ≤ '9'

def isWordC (c : Char) : Bool :=
  ('a' ≤ c && c ≤ 'z') || ('A' ≤ c && c ≤ 'Z') || isDigitC c || c = '_'

/-- Characters kept by `.replace(/[^\w\s-]/g, '')`. -/
def keepC (c : Char) : Bool :=
  isWordC c || isSpaceC c || c = '-'

/-- `String.prototype.toLowerCase` on the ASCII range. -/
def toLowerC (c : Char) : Char :=
  if 'A' ≤ c && c ≤ 'Z' then Char.ofNat (c.toNat + 32) else c

/-- `String.prototype.trim`: drop leading whitespace. -/
def trimL (s : List Char) : List Char := s.dropWhile isSpaceC

/-- `String.prototype.trim`: drop leading and trailing whitespace. -/
def jsTrim (s : List Char) : List Char :=
  (trimL (trimL s).reverse).reverse

/-- `.replace(/\s+/g, ' ')`: every maximal whitespace run becomes one space. -/
def collapseWs : List Char → List Char
  | [] => []
  | [c] => if isSpaceC c then [' '] else [c]
  | c :: d :: cs =>
    if isSpaceC c && isSpaceC d then collapseWs (d :: cs)
    else (if isSpaceC c then ' ' else c) :: collapseWs (d :: cs)

/-- `normalizeQuery` (`mockProvider.ts`): lower-case, trim, collapse
whitespace runs, strip characters outside word/space/hyphen, truncate to
200 characters. -/
def normalizeQuery (s : List Char) : List Char :=
  ((collapseWs (jsTrim (s.map toLowerC))).filter keepC).take 200

/-! ### Decimal rendering of JavaScript numbers

`` `${entityId}` `` and `` `${Date.now()}` `` in `generateAccessToken`
print a non-negative integer in decimal. -/

def digitChar (n : Nat) : Char := Char.ofNat (48 + n)

/-- Decimal digit list, fuelled so that it reduces by iota; the fuel
`n + 1` always suffices since `n / 10 < n` for `n ≥ 10`. -/
def toDecimalAux : Nat → Nat → List Char
  | 0, _ => []
  | fuel + 1, n =>
    if n < 10 then [digitChar n]
    else toDecimalAux fuel (n / 10) ++ [digitChar (n % 10)]

/-- Decimal digit list of a natural number (most significant first). -/
def toDecimal (n : Nat) : List Char := toDecimalAux (n + 1) n

/-- Numeric value of a decimal digit string (`parseInt` on an all-digit
capture group). -/
def digitsVal (ds : List Char) : Nat :=
  ds.foldl (fun a c => a * 10 + (c.toNat - 48)) 0

/-! ### Base64 (`btoa` at encode time, `Buffer.from(token, 'base64')` at
decode time)

Encoding maps byte triples to sextet quadruples with `=` padding, exactly
as `btoa`.  Node's decoder is lenient about malformed input; the model
decodes strictly and returns `none` on malformed input — every token the
claims exercise is a well-formed encoder output, where both agree. -/

def sextetChar (s : Nat) : Char :=
  if s < 26 then Char.ofNat (65 + s)
  else if s < 52 then Char.ofNat (97 + (s - 26))
  else if s < 62 then Char.ofNat (48 + (s - 52))
  else if s = 62 then '+'
  else '/'

def sextetVal (c : Char) : Option Nat :=
  if 'A' ≤ c && c ≤ 'Z' then some (c.toNat - 65)
  else if 'a' ≤ c && c ≤ 'z' then some (c.toNat - 97 + 26)
  else if '0' ≤ c && c ≤ '9' then some (c.toNat - 48 + 52)
  else if c = '+' then some 62
  else if c = '/' then some 63
  else none

def b64Encode : List Nat → List Char
  | [] => []
  | [a] => [sextetChar (a / 4), sextetChar (a % 4 * 16), '=', '=']
  | [a, b] =>
    [sextetChar (a / 4), sextetChar (a % 4 * 16 + b / 16),
     sextetChar (b % 16 * 4), '=']
  | a :: b :: c :: rest =>
    sextetChar (a / 4) :: sextetChar (a % 4 * 16 + b / 16) ::
    sextetChar (b % 16 * 4 + c / 64) :: sextetChar (c % 64) ::
    b64Encode rest

def b64Decode : List Char → Option (List Nat)
  | [] => some []
  | w :: x :: y :: z :: rest =>
    if y = '=' ∧ z = '=' ∧ rest = [] then do
      let a ← sextetVal w
      let b ← sextetVal x
      pure [a * 4 + b / 16]
    else if z = '=' ∧ rest = [] then do
      let a ← sextetVal w
      let b ← sextetVal x
      let c ← sextetVal y
      pure [a * 4 + b / 16, b % 16 * 16 + c / 4]
    else do
      let a ← sextetVal w
      let b ← sextetVal x
      let c ← sextetVal y
      let d ← sextetVal z
      let tail ← b64Decode rest
      pure ((a * 4 + b / 16) :: (b % 16 * 16 + c / 4) :: (c % 4 * 64 + d) :: tail)
  | _ => none

/-- UTF-8 bytes of an ASCII string (`TextEncoder().encode`). -/
def strBytes (s : List Char) : List Nat := s.map Char.toNat

/-- Bytes back to an ASCII string (`Buffer.prototype.toString`). -/
def bytesStr (bs : List Nat) : List Char := bs.map Char.ofNat

/-! ### Access-token codec (`generateAccessToken` / `parseAccessToken`)

The payload is `plant_search_{entityId}_{provider}_{timestamp}`; the code
reads `Date.now()` for the timestamp, modelled as an explicit argument. -/

def litPlantSearch : List Char := "plant_search_".toList

def accessPayload (entityId : Nat) (provider : List Char) (now : Nat) :
    List Char :=
  litPlantSearch ++ (toDecimal entityId ++ ('_' :: (provider ++ ('_' :: toDecimal now))))

/-- Decoded payload of a legacy truncated token:
`plant_search_{entityId}_{px}` with no trailing timestamp. -/
def truncPayload (entityId : Nat) (px : List Char) : List Char :=
  litPlantSearch ++ (toDecimal entityId ++ ('_' :: px))

/-- `generateAccessToken(entityId, provider)` at time `now`. -/
def generateAccessToken (entityId : Nat) (provider : List Char) (now : Nat) :
    List Char :=
  b64Encode (strBytes (accessPayload entityId provider now))

/-! The two regular expressions of `parseAccessToken`:
`/plant_search_(\d+)_([^_]+)_\d+/` and `/plant_search_(\d+)_([^_]+)/`,
unanchored with leftmost-match semantics.  At a given start position the
backtracking search succeeds exactly when the literal is followed by a
maximal non-empty digit run, `_`, a maximal non-empty underscore-free run,
and (for the first pattern) `_` and one more digit: a shorter choice for
either greedy run would require `_` or a digit at a position whose
character contradicts it. -/

/-- `leadsWith p s`: `s` starts with `p`. -/
def leadsWith : List Char → List Char → Bool
  | [], _ => true
  | _ :: _, [] => false
  | a :: as, b :: bs => a == b && leadsWith as bs

/-- Attempt `/plant_search_(\d+)_([^_]+)_\d+/` at the start of `s`. -/
def tryFullAt (s : List Char) : Option (Nat × List Char) :=
  if leadsWith litPlantSearch s then
    let r0 := s.drop litPlantSearch.length
    let ds := r0.takeWhile isDigitC
    if ds = [] then none
    else
      match r0.drop ds.length with
      | '_' :: r2 =>
        let p := r2.takeWhile (fun c => c != '_')
        if p = [] then none
        else
          match r2.drop p.length with
          | '_' :: c :: _ => if isDigitC c then some (digitsVal ds, p) else none
          | _ => none
      | _ => none
  else none

/-- Attempt `/plant_search_(\d+)_([^_]+)/` at the start of `s`. -/
def tryPartAt (s : List Char) : Option (Nat × List Char) :=
  if leadsWith litPlantSearch s then
    let r0 := s.drop litPlantSearch.length
    let ds := r0.takeWhile isDigitC
    if ds = [] then none
    else
      match r0.drop ds.length with
      | '_' :: r2 =>
        let p := r2.takeWhile (fun c => c != '_')
        if p = [] then none else some (digitsVal ds, p)
      | _ => none
  else none

/-- Leftmost match of the full-format pattern. -/
def scanFull : List Char → Option (Nat × List Char)
  | [] => tryFullAt []
  | s@(_ :: t) => (tryFullAt s).orElse (fun _ => scanFull t)

/-- Leftmost match of the truncated-format pattern. -/
def scanPart : List Char → Option (Nat × List Char)
  | [] => tryPartAt []
  | s@(_ :: t) => (tryPartAt s).orElse (fun _ => scanPart t)

def tagLocal : List Char := "local".toList
def tagPerenual : List Char := "perenual".toList
def tagGbif : List Char := "gbif".toList
def tagInaturalist : List Char := "inaturalist".toList
def tagPowo : List Char := "powo".toList
def tagMock : List Char := "mock".toList
def tagOpenai : List Char := "openai".toList
def tagNone : List Char := "none".toList

def pxInatu : List Char := "inatu".toList
def pxPeren : List Char := "peren".toList

/-- The partial-provider inference chain of `parseAccessToken`: known
prefixes map to full tags, anything else is returned unchanged. -/
def inferProvider (p : List Char) : List Char :=
  if leadsWith pxInatu p then tagInaturalist
  else if leadsWith tagGbif p then tagGbif
  else if leadsWith pxPeren p then tagPerenual
  else if leadsWith tagPowo p then tagPowo
  else if leadsWith tagLocal p then tagLocal
  else if leadsWith tagMock p then tagMock
  else p

/-- `parseAccessToken(token)`: base64-decode, try the full format, then the
truncated format with provider inference, else `null`. -/
def parseAccessToken (token : List Char) : Option (Nat × List Char) :=
  match b64Decode token with
  | none => none
  | some bytes =>
    let decoded := bytesStr bytes
    match scanFull decoded with
    | some (id, p) => some (id, p)
    | none =>
      match scanPart decoded with
      | some (id, p) => some (id, inferProvider p)
      | none => none

/-! ### Lemmas: decimal digits -/

theorem digitChar_toNat {d : Nat} (h : d < 10) : (digitChar d).toNat = 48 + d := by
  interval_cases d <;> decide

theorem isDigitC_digitChar {d : Nat} (h : d < 10) : isDigitC (digitChar d) = true := by
  interval_cases d <;> decide

theorem toDecimalAux_spec :
    ∀ fuel n, n < fuel →
      toDecimalAux fuel n ≠ [] ∧
      (∀ c ∈ toDecimalAux fuel n, isDigitC c = true) ∧
      digitsVal (toDecimalAux fuel n) = n := by
  intro fuel
  induction fuel with
  | zero => intro n hn; omega
  | succ fuel ih =>
    intro n hn
    by_cases h10 : n < 10
    · have e : toDecimalAux (fuel + 1) n = [digitChar n] := by
        simp [toDecimalAux, h10]
      rw [e]
      refine ⟨by simp, ?_, ?_⟩
      · intro c hc
        rw [List.mem_singleton] at hc
        subst hc
        exact isDigitC_digitChar h10
      · have := digitChar_toNat h10
        simp [digitsVal, this]
    · have e : toDecimalAux (fuel + 1) n =
          toDecimalAux fuel (n / 10) ++ [digitChar (n % 10)] := by
        simp [toDecimalAux, h10]
      have hdiv : n / 10 < fuel := by
        have := Nat.div_lt_self (by omega : 0 < n) (by omega : 1 < 10)
        omega
      obtain ⟨hne, hdig, hval⟩ := ih (n / 10) hdiv
      have hlast : (digitChar (n % 10)).toNat = 48 + n % 10 :=
        digitChar_toNat (Nat.mod_lt _ (by omega))
      rw [e]
      refine ⟨by simp, ?_, ?_⟩
      · intro c hc
        rw [List.mem_append, List.mem_singleton] at hc
        cases hc with
        | inl hc => exact hdig c hc
        | inr hc =>
          subst hc
          exact isDigitC_digitChar (Nat.mod_lt _ (by omega))
      · have efold : digitsVal (toDecimalAux fuel (n / 10) ++ [digitChar (n % 10)]) =
            digitsVal (toDecimalAux fuel (n / 10)) * 10 +
              ((digitChar (n % 10)).toNat - 48) := by
          simp [digitsVal, List.foldl_append]
        rw [efold, hval, hlast]
        omega

theorem toDecimal_ne_nil (n : Nat) : toDecimal n ≠ [] :=
  (toDecimalAux_spec (n + 1) n (Nat.lt_succ_self n)).1

theorem toDecimal_digits (n : Nat) : ∀ c ∈ toDecimal n, isDigitC c = true :=
  (toDecimalAux_spec (n + 1) n (Nat.lt_succ_self n)).2.1

theorem digitsVal_toDecimal (n : Nat) : digitsVal (toDecimal n) = n :=
  (toDecimalAux_spec (n + 1) n (Nat.lt_succ_self n)).2.2

theorem isDigitC_ne_underscore {c : Char} (h : isDigitC c = true) : c ≠ '_' := by
  intro hc; subst hc; simp [isDigitC] at h

theorem isDigitC_ne_p {c : Char} (h : isDigitC c = true) : c ≠ 'p' := by
  intro hc; subst hc; simp [isDigitC] at h

theorem toDecimal_toNat_lt (n : Nat) : ∀ c ∈ toDecimal n, c.toNat < 256 := by
  intro c hc
  have h := toDecimal_digits n c hc
  simp only [isDigitC, Bool.and_eq_true, decide_eq_true_eq] at h
  have h2 : c ≤ '9' := h.2
  have : c.toNat ≤ (57 : Nat) := h2
  omega

theorem toDecimal_ne_underscore (n : Nat) : ∀ c ∈ toDecimal n, c ≠ '_' :=
  fun c hc => isDigitC_ne_underscore (toDecimal_digits n c hc)

/-! ### Lemmas: base64 round-trip -/

theorem sextetVal_sextetChar : ∀ s, s < 64 → sextetVal (sextetChar s) = some s := by
  decide

theorem sextetChar_ne_eq : ∀ s, s < 64 → sextetChar s ≠ '=' := by
  decide

theorem b64_roundtrip :
    ∀ bs : List Nat, (∀ b ∈ bs, b < 256) → b64Decode (b64Encode bs) = some bs
  | [], _ => rfl
  | [a], h => by
    have ha : a < 256 := h a (by simp)
    have h1 : a / 4 < 64 := by omega
    have h2 : a % 4 * 16 < 64 := by
      have := Nat.mod_lt a (y := 4) (by omega); omega
    simp [b64Encode, b64Decode,
      sextetVal_sextetChar _ h1, sextetVal_sextetChar _ h2]
    omega
  | [a, b], h => by
    have ha : a < 256 := h a (by simp)
    have hb : b < 256 := h b (by simp)
    have h1 : a / 4 < 64 := by omega
    have h2 : a % 4 * 16 + b / 16 < 64 := by
      have := Nat.mod_lt a (y := 4) (by omega); omega
    have h3 : b % 16 * 4 < 64 := by
      have := Nat.mod_lt b (y := 16) (by omega); omega
    have hy : sextetChar (b % 16 * 4) ≠ '=' := sextetChar_ne_eq _ h3
    simp [b64Encode, b64Decode, hy,
      sextetVal_sextetChar _ h1, sextetVal_sextetChar _ h2,
      sextetVal_sextetChar _ h3]
    constructor <;> omega
  | a :: b :: c :: rest, h => by
    have ha : a < 256 := h a (by simp)
    have hb : b < 256 := h b (by simp)
    have hc : c < 256 := h c (by simp)
    have h1 : a / 4 < 64 := by omega
    have h2 : a % 4 * 16 + b / 16 < 64 := by
      have := Nat.mod_lt a (y := 4) (by omega); omega
    have h3 : b % 16 * 4 + c / 64 < 64 := by
      have := Nat.mod_lt b (y := 16) (by omega); omega
    have h4 : c % 64 < 64 := Nat.mod_lt _ (by omega)
    have hy : sextetChar (b % 16 * 4 + c / 64) ≠ '=' := sextetChar_ne_eq _ h3
    have hz : sextetChar (c % 64) ≠ '=' := sextetChar_ne_eq _ h4
    have htail := b64_roundtrip rest (fun x hx => h x (by simp [hx]))
    simp [b64Encode, b64Decode, hy, hz, htail,
      sextetVal_sextetChar _ h1, sextetVal_sextetChar _ h2,
      sextetVal_sextetChar _ h3, sextetVal_sextetChar _ h4]
    refine ⟨by omega, by omega, by omega⟩

theorem bytesStr_strBytes : ∀ s : List Char, bytesStr (strBytes s) = s
  | [] => rfl
  | c :: t => by
    simp only [bytesStr, strBytes, List.map_cons] at *
    rw [Char.ofNat_toNat]
    have := bytesStr_strBytes t
    simp only [bytesStr, strBytes] at this
    rw [this]

theorem b64_roundtrip_str (s : List Char) (h : ∀ c ∈ s, c.toNat < 256) :
    b64Decode (b64Encode (strBytes s)) = some (strBytes s) := by
  refine b64_roundtrip _ ?_
  intro b hb
  simp only [strBytes, List.mem_map] at hb
  obtain ⟨c, hc, rfl⟩ := hb
  exact h c hc

/-! ### Lemmas: pattern scanning -/

theorem leadsWith_append (p r : List Char) : leadsWith p (p ++ r) = true := by
  induction p with
  | nil => rfl
  | cons a as ih => simp [leadsWith, ih]

theorem leadsWith_ex : ∀ (p s : List Char), leadsWith p s = true → ∃ r, s = p ++ r := by
  intro p
  induction p with
  | nil => intro s _; exact ⟨s, rfl⟩
  | cons a as ih =>
    intro s h
    cases s with
    | nil => simp [leadsWith] at h
    | cons b bs =>
      simp only [leadsWith, Bool.and_eq_true, beq_iff_eq] at h
      obtain ⟨rfl, h2⟩ := h
      obtain ⟨r, rfl⟩ := ih bs h2
      exact ⟨r, rfl⟩

theorem takeWhile_stop {q : Char → Bool} :
    ∀ (xs : List Char) (y : Char) (ys : List Char),
      (∀ x ∈ xs, q x = true) → q y = false →
      (xs ++ y :: ys).takeWhile q = xs := by
  intro xs
  induction xs with
  | nil =>
    intro y ys _ hy
    simp [List.takeWhile_cons, hy]
  | cons x xs ih =>
    intro y ys hall hy
    have hx : q x = true := hall x (by simp)
    simp only [List.cons_append, List.takeWhile_cons, hx, if_true]
    rw [ih y ys (fun a ha => hall a (by simp [ha])) hy]

theorem takeWhile_all {q : Char → Bool} :
    ∀ (xs : List Char), (∀ x ∈ xs, q x = true) → xs.takeWhile q = xs := by
  intro xs
  induction xs with
  | nil => intro _; rfl
  | cons x xs ih =>
    intro hall
    have hx : q x = true := hall x (by simp)
    simp only [List.takeWhile_cons, hx, if_true]
    rw [ih (fun a ha => hall a (by simp [ha]))]

/-- The full pattern matches at the start of a full-format payload. -/
theorem tryFullAt_payload (entityId now : Nat) (tag : List Char)
    (hne : tag ≠ []) (hnu : '_' ∉ tag) :
    tryFullAt (accessPayload entityId tag now) = some (entityId, tag) := by
  obtain ⟨c0, t0, hts⟩ := List.exists_cons_of_ne_nil (toDecimal_ne_nil now)
  have hc0 : isDigitC c0 = true := by
    refine toDecimal_digits now c0 ?_
    rw [hts]; simp
  have hds : (toDecimal entityId ++ '_' :: (tag ++ '_' :: toDecimal now)).takeWhile
      isDigitC = toDecimal entityId :=
    takeWhile_stop _ _ _ (toDecimal_digits entityId) (by decide)
  have htag : ∀ x ∈ tag, (x != '_') = true := by
    intro x hx
    simp only [bne_iff_ne, ne_eq]
    exact fun e => hnu (e ▸ hx)
  have hp : ((tag ++ '_' :: toDecimal now).takeWhile (fun c => c != '_')) = tag :=
    takeWhile_stop _ _ _ htag (by decide)
  simp only [tryFullAt, accessPayload, leadsWith_append, if_true, List.drop_left,
    hds, hp]
  rw [if_neg hne, hts]
  simp [hc0, digitsVal_toDecimal]
  exact toDecimal_ne_nil entityId

/-- The truncated pattern matches at the start of a truncated payload. -/
theorem tryPartAt_payload (entityId : Nat) (px : List Char)
    (hne : px ≠ []) (hnu : '_' ∉ px) :
    tryPartAt (truncPayload entityId px) = some (entityId, px) := by
  have hpx : ∀ x ∈ px, (x != '_') = true := by
    intro x hx
    simp only [bne_iff_ne, ne_eq]
    exact fun e => hnu (e ▸ hx)
  cases hpx2 : px with
  | nil => exact absurd hpx2 hne
  | cons c0 t0 =>
    have hds : (toDecimal entityId ++ '_' :: px).takeWhile isDigitC =
        toDecimal entityId :=
      takeWhile_stop _ _ _ (toDecimal_digits entityId) (by decide)
    have hp : px.takeWhile (fun c => c != '_') = px := takeWhile_all _ hpx
    rw [← hpx2]
    simp only [tryPartAt, truncPayload, leadsWith_append, if_true, List.drop_left,
      hds]
    rw [hp, if_neg hne]
    simp [digitsVal_toDecimal]
    exact toDecimal_ne_nil entityId

/-- The full pattern never matches inside an underscore-free string. -/
theorem tryFullAt_none_noUnderscore {s : List Char} (h : '_' ∉ s) :
    tryFullAt s = none := by
  cases hl : leadsWith litPlantSearch s with
  | false => simp [tryFullAt, hl]
  | true =>
    obtain ⟨r, rfl⟩ := leadsWith_ex _ _ hl
    exact absurd (by simp [litPlantSearch] : '_' ∈ litPlantSearch ++ r) h

theorem scanFull_none_noUnderscore : ∀ {s : List Char}, '_' ∉ s → scanFull s = none := by
  intro s
  induction s with
  | nil => intro _; rfl
  | cons c t ih =>
    intro h
    have h1 : tryFullAt (c :: t) = none := tryFullAt_none_noUnderscore h
    have h2 : scanFull t = none := ih (fun hm => h (List.mem_cons_of_mem _ hm))
    simp [scanFull, h1, h2, Option.orElse]

theorem tryFullAt_cons_ne_p {c : Char} {t : List Char} (h : c ≠ 'p') :
    tryFullAt (c :: t) = none := by
  have hl : leadsWith litPlantSearch (c :: t) = false := by
    simp only [litPlantSearch]
    simp only [String.toList]
    simp [leadsWith, beq_iff_eq]
    intro e
    exact absurd e.symm h
  simp [tryFullAt, hl]

theorem scanFull_cons_step {c : Char} {t : List Char}
    (h : tryFullAt (c :: t) = none) : scanFull (c :: t) = scanFull t := by
  simp [scanFull, h, Option.orElse]

theorem scanFull_skip : ∀ (xs : List Char) (r : List Char),
    (∀ c ∈ xs, c ≠ 'p') → scanFull (xs ++ r) = scanFull r := by
  intro xs
  induction xs with
  | nil => intro r _; rfl
  | cons x t ih =>
    intro r hall
    rw [List.cons_append,
      scanFull_cons_step (tryFullAt_cons_ne_p (hall x (by simp))),
      ih r (fun c hc => hall c (by simp [hc]))]

theorem scanFull_some_head {c : Char} {t : List Char} {v : Nat × List Char}
    (h : tryFullAt (c :: t) = some v) : scanFull (c :: t) = some v := by
  simp [scanFull, h, Option.orElse]

theorem scanPart_some_head {c : Char} {t : List Char} {v : Nat × List Char}
    (h : tryPartAt (c :: t) = some v) : scanPart (c :: t) = some v := by
  simp [scanPart, h, Option.orElse]

def litTail : List Char := "lant_search_".toList

theorem litPlantSearch_cons : litPlantSearch = 'p' :: litTail := by decide

/-- The full pattern fails on a truncated payload: the greedy
underscore-free run reaches the end of the string, leaving no `_` digit
tail. -/
theorem tryFullAt_trunc_none (entityId : Nat) (px : List Char)
    (hne : px ≠ []) (hnu : '_' ∉ px) :
    tryFullAt (truncPayload entityId px) = none := by
  have hpx : ∀ x ∈ px, (x != '_') = true := by
    intro x hx
    simp only [bne_iff_ne, ne_eq]
    exact fun e => hnu (e ▸ hx)
  have hds : (toDecimal entityId ++ '_' :: px).takeWhile isDigitC =
      toDecimal entityId :=
    takeWhile_stop _ _ _ (toDecimal_digits entityId) (by decide)
  have hp : px.takeWhile (fun c => c != '_') = px := takeWhile_all _ hpx
  simp only [tryFullAt, truncPayload, leadsWith_append, if_true, List.drop_left,
    hds, hp]
  rw [if_neg hne, List.drop_length]
  simp

/-- The full-format pattern finds no match anywhere in a truncated
payload. -/
theorem scanFull_trunc_none (entityId : Nat) (px : List Char)
    (hne : px ≠ []) (hnu : '_' ∉ px) :
    scanFull (truncPayload entityId px) = none := by
  have h0 : tryFullAt (truncPayload entityId px) = none :=
    tryFullAt_trunc_none entityId px hne hnu
  have e : truncPayload entityId px =
      'p' :: (litTail ++ (toDecimal entityId ++ ('_' :: px))) := by
    rw [truncPayload, litPlantSearch_cons, List.cons_append]
  rw [e] at h0 ⊢
  rw [scanFull_cons_step h0]
  rw [scanFull_skip litTail _ (by decide)]
  rw [scanFull_skip (toDecimal entityId) _
    (fun c hc => isDigitC_ne_p (toDecimal_digits entityId c hc))]
  rw [scanFull_cons_step (tryFullAt_cons_ne_p (by decide))]
  exact scanFull_none_noUnderscore hnu

/-- Round-trip of the codec on full-format tokens: decode is a
left-inverse of encode for any non-empty underscore-free ASCII provider
tag and any timestamp. -/
theorem parse_generate (entityId now : Nat) (tag : List Char)
    (hne : tag ≠ []) (hnu : '_' ∉ tag) (hascii : ∀ c ∈ tag, c.toNat < 256) :
    parseAccessToken (generateAccessToken entityId tag now) =
      some (entityId, tag) := by
  have hasciiP : ∀ c ∈ accessPayload entityId tag now, c.toNat < 256 := by
    intro c hc
    simp only [accessPayload, List.mem_append, List.mem_cons] at hc
    rcases hc with hc | hc | rfl | hc | rfl | hc
    · revert hc; revert c; decide
    · exact toDecimal_toNat_lt entityId c hc
    · decide
    · exact hascii c hc
    · decide
    · exact toDecimal_toNat_lt now c hc
  have hdec := b64_roundtrip_str _ hasciiP
  have hfull := tryFullAt_payload entityId now tag hne hnu
  have hplnil : accessPayload entityId tag now ≠ [] := by
    simp [accessPayload, litPlantSearch]
  obtain ⟨c1, t1, hpl⟩ := List.exists_cons_of_ne_nil hplnil
  rw [parseAccessToken, generateAccessToken, hdec]
  simp only [bytesStr_strBytes]
  rw [hpl] at hfull ⊢
  rw [scanFull_some_head hfull]

/-- Decode of a legacy truncated token: the full pattern fails, the
truncated pattern captures `(entityId, px)`, and the provider prefix is
run through the inference chain. -/
theorem parse_trunc (entityId : Nat) (px : List Char)
    (hne : px ≠ []) (hnu : '_' ∉ px) (hascii : ∀ c ∈ px, c.toNat < 256) :
    parseAccessToken (b64Encode (strBytes (truncPayload entityId px))) =
      some (entityId, inferProvider px) := by
  have hasciiP : ∀ c ∈ truncPayload entityId px, c.toNat < 256 := by
    intro c hc
    simp only [truncPayload, List.mem_append, List.mem_cons] at hc
    rcases hc with hc | hc | rfl | hc
    · revert hc; revert c; decide
    · exact toDecimal_toNat_lt entityId c hc
    · decide
    · exact hascii c hc
  have hdec := b64_roundtrip_str _ hasciiP
  have hsf := scanFull_trunc_none entityId px hne hnu
  have hsp := tryPartAt_payload entityId px hne hnu
  have hplnil : truncPayload entityId px ≠ [] := by
    simp [truncPayload, litPlantSearch]
  obtain ⟨c1, t1, hpl⟩ := List.exists_cons_of_ne_nil hplnil
  rw [parseAccessToken, hdec]
  simp only [bytesStr_strBytes]
  rw [hpl] at hsf hsp ⊢
  rw [hsf, scanPart_some_head hsp]

/-- The provider tags known to the system (`factory.ts` union plus the
`powo` tag used by the POWO adapter). -/
def knownTags : List (List Char) :=
  [tagLocal, tagPerenual, tagGbif, tagInaturalist, tagPowo, tagMock]

/-! ### Lemmas: the normalizer -/

theorem charToNat_ofNat {n : Nat} (h : n.isValidChar) : (Char.ofNat n).toNat = n := by
  simp [Char.ofNat, Char.toNat, Char.ofNatAux, h]
  rfl

theorem charLe_iff {a b : Char} : a ≤ b ↔ a.toNat ≤ b.toNat := Iff.rfl

theorem toLowerC_toNat {c : Char} (h : ('A' ≤ c && c ≤ 'Z') = true) :
    (toLowerC c).toNat = c.toNat + 32 := by
  have hz : c.toNat ≤ 90 := by
    simp only [Bool.and_eq_true, decide_eq_true_eq] at h
    exact charLe_iff.mp h.2
  rw [toLowerC, if_pos h]
  exact charToNat_ofNat (Or.inl (by omega))

theorem toLowerC_idem (c : Char) : toLowerC (toLowerC c) = toLowerC c := by
  by_cases h : ('A' ≤ c && c ≤ 'Z') = true
  · have ha : 65 ≤ c.toNat := by
      simp only [Bool.and_eq_true, decide_eq_true_eq] at h
      exact charLe_iff.mp h.1
    have ht := toLowerC_toNat h
    have hz : ('Z').toNat = 90 := by decide
    have hout : ¬ (('A' ≤ toLowerC c && toLowerC c ≤ 'Z') = true) := by
      simp only [Bool.and_eq_true, decide_eq_true_eq, not_and]
      intro _
      rw [charLe_iff, ht, hz]
      omega
    conv_lhs => rw [toLowerC, if_neg hout]
  · have e : toLowerC c = c := by rw [toLowerC, if_neg h]
    rw [e, e]

theorem toLowerC_keep {c : Char} (h : keepC c = true) : keepC (toLowerC c) = true := by
  by_cases hc : ('A' ≤ c && c ≤ 'Z') = true
  · have ha : 65 ≤ c.toNat := by
      simp only [Bool.and_eq_true, decide_eq_true_eq] at hc
      exact charLe_iff.mp hc.1
    have hz : c.toNat ≤ 90 := by
      simp only [Bool.and_eq_true, decide_eq_true_eq] at hc
      exact charLe_iff.mp hc.2
    have ht := toLowerC_toNat hc
    have ea : ('a').toNat = 97 := by decide
    have ez : ('z').toNat = 122 := by decide
    have h1 : 'a' ≤ toLowerC c := by rw [charLe_iff, ht, ea]; omega
    have h2 : toLowerC c ≤ 'z' := by rw [charLe_iff, ht, ez]; omega
    simp [keepC, isWordC, h1, h2]
  · rw [toLowerC, if_neg hc]
    exact h

/-- `trimL` leaves a string whose head is not whitespace. -/
theorem trimL_no_lead : ∀ {l c t}, trimL l = c :: t → isSpaceC c = false := by
  intro l
  induction l with
  | nil => intro c t h; simp [trimL] at h
  | cons a as ih =>
    intro c t h
    by_cases ha : isSpaceC a = true
    · rw [trimL, List.dropWhile_cons, if_pos ha] at h
      exact ih h
    · rw [trimL, List.dropWhile_cons, if_neg ha] at h
      cases h
      simpa using ha

theorem trimL_cons_nonspace {c : Char} {t : List Char} (h : isSpaceC c = false) :
    trimL (c :: t) = c :: t := by
  rw [trimL, List.dropWhile_cons, if_neg (by simp [h])]

theorem trimL_mem {l : List Char} {c : Char} (h : c ∈ trimL l) : c ∈ l :=
  (List.dropWhile_sublist _).subset h

theorem trimL_len (l : List Char) : (trimL l).length ≤ l.length :=
  (List.dropWhile_sublist _).length_le

/-- `trimR l`: drop trailing whitespace (the reverse/`trimL`/reverse step
inside `jsTrim`). -/
def trimR (l : List Char) : List Char := (trimL l.reverse).reverse

theorem jsTrim_eq (l : List Char) : jsTrim l = trimR (trimL l) := rfl

theorem trimR_append_nonspace {c : Char} {t : List Char} (h : isSpaceC c = false) :
    trimR (t ++ [c]) = t ++ [c] := by
  rw [trimR, List.reverse_append, List.reverse_singleton, List.singleton_append,
    trimL_cons_nonspace h]
  simp

theorem trimR_no_trail {l t : List Char} {c : Char} (h : trimR l = t ++ [c]) :
    isSpaceC c = false := by
  have : trimL l.reverse = (t ++ [c]).reverse := by
    rw [← h, trimR, List.reverse_reverse]
  rw [List.reverse_append, List.reverse_singleton, List.singleton_append] at this
  exact trimL_no_lead this

theorem trimR_mem {l : List Char} {c : Char} (h : c ∈ trimR l) : c ∈ l := by
  rw [trimR, List.mem_reverse] at h
  have := trimL_mem h
  rwa [List.mem_reverse] at this

theorem trimR_len (l : List Char) : (trimR l).length ≤ l.length := by
  rw [trimR, List.length_reverse]
  calc (trimL l.reverse).length ≤ l.reverse.length := trimL_len _
    _ = l.length := List.length_reverse l

/-- `trimR` keeps the head of its input (it only removes from the end). -/
theorem trimR_cons_structure (c : Char) (t : List Char) :
    trimR (c :: t) = [] ∨ ∃ t2, trimR (c :: t) = c :: t2 := by
  rw [trimR]
  have : (c :: t).reverse = t.reverse ++ [c] := by simp
  rw [this, trimL, List.dropWhile_append]
  by_cases he : (t.reverse.dropWhile isSpaceC).isEmpty = true
  · rw [if_pos he]
    by_cases hc : isSpaceC c = true
    · left
      simp [List.dropWhile_cons, hc]
    · right
      refine ⟨[], ?_⟩
      simp [List.dropWhile_cons, hc]
  · rw [if_neg he]
    right
    exact ⟨(t.reverse.dropWhile isSpaceC).reverse, by simp⟩

theorem jsTrim_mem {l : List Char} {c : Char} (h : c ∈ jsTrim l) : c ∈ l :=
  trimL_mem (trimR_mem h)

theorem jsTrim_len (l : List Char) : (jsTrim l).length ≤ l.length :=
  le_trans (trimR_len _) (trimL_len _)

/-- A non-empty `jsTrim` output neither starts nor ends with whitespace. -/
theorem jsTrim_ends {l : List Char} {c : Char} {t : List Char}
    (h : jsTrim l = c :: t) :
    isSpaceC c = false ∧
      isSpaceC ((c :: t).getLast (by simp)) = false := by
  constructor
  · rw [jsTrim_eq] at h
    cases he : trimL l with
    | nil => rw [he] at h; simp [trimR, trimL] at h
    | cons c0 t0 =>
      have h0 : isSpaceC c0 = false := trimL_no_lead he
      rw [he] at h
      rcases trimR_cons_structure c0 t0 with h2 | ⟨t2, h2⟩
      · rw [h2] at h; exact absurd h (by simp)
      · rw [h2] at h
        cases h
        exact h0
  · have hne : (c :: t) ≠ ([] : List Char) := by simp
    have hdecomp := List.dropLast_append_getLast hne
    rw [jsTrim_eq] at h
    exact trimR_no_trail (l := trimL l) (h.trans hdecomp.symm)

/-! Structure of `collapseWs`. -/

theorem collapseWs_cons_nonspace {c : Char} (t : List Char)
    (h : isSpaceC c = false) : collapseWs (c :: t) = c :: collapseWs t := by
  cases t with
  | nil => simp [collapseWs, h]
  | cons d cs => simp [collapseWs, h]

theorem collapseWs_cons_space_space {c d : Char} (cs : List Char)
    (hc : isSpaceC c = true) (hd : isSpaceC d = true) :
    collapseWs (c :: d :: cs) = collapseWs (d :: cs) := by
  simp [collapseWs, hc, hd]

theorem collapseWs_cons_space_nonspace {c d : Char} (cs : List Char)
    (hc : isSpaceC c = true) (hd : isSpaceC d = false) :
    collapseWs (c :: d :: cs) = ' ' :: collapseWs (d :: cs) := by
  simp [collapseWs, hc, hd]

theorem collapseWs_ne_nil : ∀ {l : List Char}, l ≠ [] → collapseWs l ≠ [] := by
  intro l
  induction l with
  | nil => intro h; exact absurd rfl h
  | cons c t ih =>
    intro _
    cases t with
    | nil =>
      by_cases hc : isSpaceC c = true <;> simp [collapseWs, hc]
    | cons d cs =>
      by_cases hc : isSpaceC c = true
      · by_cases hd : isSpaceC d = true
        · rw [collapseWs_cons_space_space cs hc hd]
          exact ih (by simp)
        · rw [collapseWs_cons_space_nonspace cs hc
            (Bool.eq_false_iff.mpr hd)]
          simp
      · rw [collapseWs_cons_nonspace _ (Bool.eq_false_iff.mpr hc)]
        simp

theorem collapseWs_mem : ∀ {l : List Char} {c : Char},
    c ∈ collapseWs l → c = ' ' ∨ c ∈ l := by
  intro l
  induction l with
  | nil => intro c h; simp [collapseWs] at h
  | cons a t ih =>
    intro c h
    cases t with
    | nil =>
      by_cases ha : isSpaceC a = true <;> simp [collapseWs, ha] at h
      · left; exact h
      · right; simp [h]
    | cons d cs =>
      by_cases ha : isSpaceC a = true
      · by_cases hd : isSpaceC d = true
        · rw [collapseWs_cons_space_space cs ha hd] at h
          rcases ih h with h2 | h2
          · left; exact h2
          · right; simp [h2]
        · rw [collapseWs_cons_space_nonspace cs ha
            (Bool.eq_false_iff.mpr hd)] at h
          rcases List.mem_cons.mp h with rfl | h2
          · left; rfl
          · rcases ih h2 with h3 | h3
            · left; exact h3
            · right; simp [h3]
      · rw [collapseWs_cons_nonspace _ (Bool.eq_false_iff.mpr ha)] at h
        rcases List.mem_cons.mp h with rfl | h2
        · right; simp
        · rcases ih h2 with h3 | h3
          · left; exact h3
          · right; simp [h3]

theorem collapseWs_len : ∀ (l : List Char), (collapseWs l).length ≤ l.length := by
  intro l
  induction l with
  | nil => simp [collapseWs]
  | cons a t ih =>
    cases t with
    | nil => by_cases ha : isSpaceC a = true <;> simp [collapseWs, ha]
    | cons d cs =>
      by_cases ha : isSpaceC a = true
      · by_cases hd : isSpaceC d = true
        · rw [collapseWs_cons_space_space cs ha hd]
          exact le_trans ih (by simp)
        · rw [collapseWs_cons_space_nonspace cs ha (Bool.eq_false_iff.mpr hd)]
          simpa using ih
      · rw [collapseWs_cons_nonspace _ (Bool.eq_false_iff.mpr ha)]
        simpa using ih

/-- Collapsing whitespace runs is idempotent. -/
theorem collapseWs_idem : ∀ (l : List Char), collapseWs (collapseWs l) = collapseWs l := by
  intro l
  induction l with
  | nil => rfl
  | cons a t ih =>
    cases t with
    | nil =>
      by_cases ha : isSpaceC a = true
      · simp [collapseWs, ha]
      · simp [collapseWs, ha]
    | cons d cs =>
      by_cases ha : isSpaceC a = true
      · by_cases hd : isSpaceC d = true
        · rw [collapseWs_cons_space_space cs ha hd, ih]
        · have hd2 := Bool.eq_false_iff.mpr hd
          rw [collapseWs_cons_space_nonspace cs ha hd2]
          rw [collapseWs_cons_nonspace _ hd2] at ih ⊢
          rw [collapseWs_cons_space_nonspace _ (by decide) hd2, ih]
      · have ha2 := Bool.eq_false_iff.mpr ha
        rw [collapseWs_cons_nonspace _ ha2,
          collapseWs_cons_nonspace _ ha2, ih]

/-- Collapsing preserves a non-whitespace final character. -/
theorem collapseWs_last : ∀ (l : List Char) (c : Char), isSpaceC c = false →
    ∃ m, collapseWs (l ++ [c]) = m ++ [c] := by
  intro l
  induction l with
  | nil => intro c hc; exact ⟨[], by simp [collapseWs, hc]⟩
  | cons a t ih =>
    intro c hc
    cases t with
    | nil =>
      by_cases ha : isSpaceC a = true
      · rw [List.cons_append, List.nil_append,
          collapseWs_cons_space_nonspace _ ha hc]
        exact ⟨[' '], by simp [collapseWs, hc]⟩
      · rw [List.cons_append, List.nil_append,
          collapseWs_cons_nonspace _ (Bool.eq_false_iff.mpr ha)]
        exact ⟨[a], by simp [collapseWs, hc]⟩
    | cons d cs =>
      obtain ⟨m, hm⟩ := ih c hc
      simp only [List.cons_append] at hm ⊢
      by_cases ha : isSpaceC a = true
      · by_cases hd : isSpaceC d = true
        · rw [collapseWs_cons_space_space _ ha hd, hm]
          exact ⟨m, rfl⟩
        · rw [collapseWs_cons_space_nonspace _ ha (Bool.eq_false_iff.mpr hd), hm]
          exact ⟨' ' :: m, rfl⟩
      · rw [collapseWs_cons_nonspace _ (Bool.eq_false_iff.mpr ha), hm]
        exact ⟨a :: m, rfl⟩

/-- Idempotence of `normalizeQuery` on inputs that contain only kept
characters (word characters, whitespace, hyphens) and are at most 200
characters long. -/
theorem normalizeQuery_fix (x : List Char)
    (hclean : ∀ c ∈ x, keepC c = true) (hlen : x.length ≤ 200) :
    normalizeQuery (normalizeQuery x) = normalizeQuery x := by
  have hwkeep : ∀ c ∈ x.map toLowerC, keepC c = true := by
    intro c hc
    obtain ⟨c0, hc0, rfl⟩ := List.mem_map.mp hc
    exact toLowerC_keep (hclean c0 hc0)
  have hzkeep : ∀ c ∈ jsTrim (x.map toLowerC), keepC c = true :=
    fun c hc => hwkeep c (jsTrim_mem hc)
  have hykeep : ∀ c ∈ collapseWs (jsTrim (x.map toLowerC)), keepC c = true := by
    intro c hc
    rcases collapseWs_mem hc with rfl | hc2
    · decide
    · exact hzkeep c hc2
  have hfilter : (collapseWs (jsTrim (x.map toLowerC))).filter keepC =
      collapseWs (jsTrim (x.map toLowerC)) := List.filter_eq_self.mpr hykeep
  have hylen : (collapseWs (jsTrim (x.map toLowerC))).length ≤ 200 := by
    have h1 := collapseWs_len (jsTrim (x.map toLowerC))
    have h2 := jsTrim_len (x.map toLowerC)
    have h3 : (x.map toLowerC).length = x.length := List.length_map x toLowerC
    omega
  have hy : normalizeQuery x = collapseWs (jsTrim (x.map toLowerC)) := by
    rw [normalizeQuery, hfilter, List.take_of_length_le hylen]
  rw [hy]
  have hlower : ∀ c ∈ collapseWs (jsTrim (x.map toLowerC)), toLowerC c = c := by
    intro c hc
    rcases collapseWs_mem hc with rfl | hc2
    · decide
    · obtain ⟨c0, _, rfl⟩ := List.mem_map.mp (jsTrim_mem hc2)
      exact toLowerC_idem c0
  have hmapy : (collapseWs (jsTrim (x.map toLowerC))).map toLowerC =
      collapseWs (jsTrim (x.map toLowerC)) := by
    conv_rhs => rw [← List.map_id (collapseWs (jsTrim (x.map toLowerC)))]
    exact List.map_congr_left hlower
  cases hz : jsTrim (x.map toLowerC) with
  | nil => decide
  | cons c1 t1 =>
    obtain ⟨hh, hl⟩ := jsTrim_ends hz
    rw [hz] at hmapy hfilter hylen
    have hheadcw : collapseWs (c1 :: t1) = c1 :: collapseWs t1 :=
      collapseWs_cons_nonspace t1 hh
    have hdecomp := List.dropLast_append_getLast
      (List.cons_ne_nil c1 t1)
    obtain ⟨m, hm⟩ := collapseWs_last ((c1 :: t1).dropLast)
      ((c1 :: t1).getLast (List.cons_ne_nil c1 t1)) hl
    rw [hdecomp] at hm
    have htrimL : trimL (collapseWs (c1 :: t1)) = collapseWs (c1 :: t1) := by
      rw [hheadcw]
      exact trimL_cons_nonspace hh
    have htrimR : trimR (collapseWs (c1 :: t1)) = collapseWs (c1 :: t1) := by
      rw [hm]
      exact trimR_append_nonspace hl
    have htrim : jsTrim (collapseWs (c1 :: t1)) = collapseWs (c1 :: t1) := by
      rw [jsTrim_eq, htrimL, htrimR]
    rw [normalizeQuery, hmapy, htrim, collapseWs_idem, hfilter,
      List.take_of_length_le hylen]

/-! ### Claim theorems: normalizer and codec -/

def cexDotted : List Char := "a . b".toList

def strFicus : List Char := "ficus lyrata".toList

def pxZzz : List Char := "zzz".toList

/-- C5 counterexample: `normalizeQuery` is not idempotent on `"a . b"`.
Stripping the `.` merges the two spaces around it into a double space,
which only the second application collapses. -/
theorem claim_C5_counterexample :
    normalizeQuery (normalizeQuery cexDotted) ≠ normalizeQuery cexDotted := by
  decide

/-- C5 (amended): `normalize(normalize(x)) = normalize(x)` holds for every
string built only from word characters, whitespace and hyphens with at most
200 characters; it fails for general strings (see the counterexample) since
stripping a disallowed character can create a new whitespace run, and
truncation at 200 can expose a trailing space. -/
theorem claim_C5_normalize_idempotent (x : List Char)
    (hclean : ∀ c ∈ x, keepC c = true) (hlen : x.length ≤ 200) :
    normalizeQuery (normalizeQuery x) = normalizeQuery x :=
  normalizeQuery_fix x hclean hlen

theorem claim_C5_witness :
    (∀ c ∈ strFicus, keepC c = true) ∧ strFicus.length ≤ 200 ∧
      normalizeQuery (normalizeQuery strFicus) = normalizeQuery strFicus :=
  ⟨by decide, by decide,
    claim_C5_normalize_idempotent strFicus (by decide) (by decide)⟩

/-- C3: Address round-trip — for every entity id, every provider tag in the
known tag set and every encoding-time timestamp, decoding the encoded token
returns exactly that id and tag. -/
theorem claim_C3_address_roundtrip (entityId now : Nat) (tag : List Char)
    (h : tag ∈ knownTags) :
    parseAccessToken (generateAccessToken entityId tag now) =
      some (entityId, tag) := by
  have hs : tag = tagLocal ∨ tag = tagPerenual ∨ tag = tagGbif ∨
      tag = tagInaturalist ∨ tag = tagPowo ∨ tag = tagMock := by
    simpa [knownTags] using h
  rcases hs with rfl | rfl | rfl | rfl | rfl | rfl <;>
    exact parse_generate _ _ _ (by decide) (by decide) (by decide)

theorem claim_C3_witness :
    tagMock ∈ knownTags ∧
      parseAccessToken (generateAccessToken 42 tagMock 1699999999999) =
        some (42, tagMock) :=
  ⟨by decide, claim_C3_address_roundtrip 42 1699999999999 tagMock (by decide)⟩

/-- C4 counterexample: a truncated token whose prefix `zzz` matches no
known provider-tag prefix decodes to `some (5, "zzz")` — the unknown prefix
is returned verbatim — not to `null` as the claim states. -/
theorem claim_C4_counterexample :
    parseAccessToken (b64Encode (strBytes (truncPayload 5 pxZzz))) =
        some (5, pxZzz) ∧
      parseAccessToken (b64Encode (strBytes (truncPayload 5 pxZzz))) ≠
        none := by
  constructor
  · decide
  · decide

/-- C4 (amended): decoding a truncated token `plant_search_{id}_{px}` (for
any non-empty underscore-free ASCII `px`) succeeds with entity id `id` and
provider `inferProvider px`: the known prefixes map to the corresponding
full tags, while an unknown prefix is returned unchanged (never `null`;
`null` arises only when the payload does not match the pattern at all). -/
theorem claim_C4_truncated_decode (entityId : Nat) (px : List Char)
    (hne : px ≠ []) (hnu : '_' ∉ px) (hascii : ∀ c ∈ px, c.toNat < 256) :
    parseAccessToken (b64Encode (strBytes (truncPayload entityId px))) =
      some (entityId, inferProvider px) :=
  parse_trunc entityId px hne hnu hascii

theorem claim_C4_witness :
    inferProvider pxInatu = tagInaturalist ∧
      parseAccessToken (b64Encode (strBytes (truncPayload 7 pxInatu))) =
        some (7, tagInaturalist) := by
  refine ⟨by decide, ?_⟩
  rw [claim_C4_truncated_decode 7 pxInatu (by decide) (by decide) (by decide)]
  decide

/-! ### Similarity scorer (`calculateSimilarity` /
`calculateLevenshteinSimilarity`, `mockProvider.ts`)

JavaScript numbers are modelled as `Rat`.  `levCell a b j i` is
`matrix[j][i]` of the dynamic program: row 0 and column 0 hold the
indices, and the interior cell takes the minimum of deletion, insertion
and substitution, with the indicator comparing `a[i-1]` and `b[j-1]`. -/

def levCell (a b : List Char) : Nat → Nat → Nat
  | 0, i => i
  | j + 1, 0 => j + 1
  | j + 1, i + 1 =>
    min (levCell a b (j + 1) i + 1)
      (min (levCell a b j (i + 1) + 1)
        (levCell a b j i + (if a.getD i ' ' = b.getD j ' ' then 0 else 1)))
  termination_by j i => (j, i)

def calculateLevenshteinSimilarity (a b : List Char) : ℚ :=
  if a.length = 0 then (if b.length = 0 then 1 else 0)
  else if b.length = 0 then 0
  else
    let maxLength := max a.length b.length
    let distance := levCell a b b.length a.length
    max 0 (((maxLength : ℚ) - (distance : ℚ)) / (maxLength : ℚ))

/-- `target.includes(query)`. -/
def occursIn (q : List Char) : List Char → Bool
  | [] => leadsWith q []
  | s@(_ :: t) => leadsWith q s || occursIn q t

/-- `calculateSimilarity(query, target)`: exact match, contains match
weighted by length, starts-with match weighted by length, else
edit-distance similarity. -/
def calculateSimilarity (query target : List Char) : ℚ :=
  let nq := normalizeQuery query
  let nt := normalizeQuery target
  if nq = nt then 1
  else if occursIn nq nt then
    (8 / 10 : ℚ) * ((nq.length : ℚ) / (nt.length : ℚ))
  else if leadsWith nq nt then
    (9 / 10 : ℚ) * ((nq.length : ℚ) / (nt.length : ℚ))
  else calculateLevenshteinSimilarity nq nt

theorem leadsWith_length_le : ∀ {q s : List Char}, leadsWith q s = true →
    q.length ≤ s.length := by
  intro q
  induction q with
  | nil => intro s _; simp
  | cons a as ih =>
    intro s h
    cases s with
    | nil => simp [leadsWith] at h
    | cons b bs =>
      simp only [leadsWith, Bool.and_eq_true] at h
      have := ih h.2
      simp only [List.length_cons]
      omega

theorem leadsWith_nil_right {q : List Char} (h : leadsWith q [] = true) :
    q = [] := by
  cases q with
  | nil => rfl
  | cons a as => simp [leadsWith] at h

theorem occursIn_length_le : ∀ {t q : List Char}, occursIn q t = true →
    q.length ≤ t.length := by
  intro t
  induction t with
  | nil =>
    intro q h
    rw [occursIn] at h
    rw [leadsWith_nil_right h]
  | cons c t ih =>
    intro q h
    rw [occursIn, Bool.or_eq_true] at h
    rcases h with h | h
    · exact leadsWith_length_le h
    · have := ih h
      simp only [List.length_cons]
      omega

theorem levSimilarity_bounds (a b : List Char) :
    0 ≤ calculateLevenshteinSimilarity a b ∧
      calculateLevenshteinSimilarity a b ≤ 1 := by
  rw [calculateLevenshteinSimilarity]
  by_cases ha : a.length = 0
  · rw [if_pos ha]
    by_cases hb : b.length = 0
    · rw [if_pos hb]; norm_num
    · rw [if_neg hb]; norm_num
  · rw [if_neg ha]
    by_cases hb : b.length = 0
    · rw [if_pos hb]; norm_num
    · rw [if_neg hb]
      have hM : (1 : ℚ) ≤ ((max a.length b.length : Nat) : ℚ) := by
        have : 1 ≤ max a.length b.length := by omega
        exact_mod_cast this
    /- `max 0 r` is nonnegative; for the upper bound, the numerator is at
       most the denominator because the distance is a natural number. -/
      constructor
      · exact le_max_left 0 _
      · refine max_le (by norm_num) ?_
        rw [div_le_one (by linarith)]
        have hd : (0 : ℚ) ≤ ((levCell a b b.length a.length : Nat) : ℚ) := by
          exact_mod_cast Nat.zero_le _
        linarith

theorem similarity_bounds (a b : List Char) :
    0 ≤ calculateSimilarity a b ∧ calculateSimilarity a b ≤ 1 := by
  rw [calculateSimilarity]
  by_cases heq : normalizeQuery a = normalizeQuery b
  · rw [if_pos heq]; norm_num
  · rw [if_neg heq]
    by_cases hin : occursIn (normalizeQuery a) (normalizeQuery b) = true
    · rw [if_pos hin]
      have hle := occursIn_length_le hin
      have hbne : normalizeQuery b ≠ [] := by
        intro hb
        rw [hb] at hin
        rw [occursIn] at hin
        exact heq (by rw [leadsWith_nil_right hin, hb])
      have hbpos : (0 : ℚ) < ((normalizeQuery b).length : ℚ) := by
        have : 0 < (normalizeQuery b).length := List.length_pos.mpr hbne
        exact_mod_cast this
      have hfrac0 : (0 : ℚ) ≤ ((normalizeQuery a).length : ℚ) /
          ((normalizeQuery b).length : ℚ) :=
        div_nonneg (by exact_mod_cast Nat.zero_le _) (le_of_lt hbpos)
      have hfrac1 : ((normalizeQuery a).length : ℚ) /
          ((normalizeQuery b).length : ℚ) ≤ 1 := by
        rw [div_le_one hbpos]
        exact_mod_cast hle
      constructor
      · positivity
      · nlinarith
    · rw [if_neg hin]
      by_cases hlw : leadsWith (normalizeQuery a) (normalizeQuery b) = true
      · rw [if_pos hlw]
        have hle := leadsWith_length_le hlw
        have hbne : normalizeQuery b ≠ [] := by
          intro hb
          rw [hb] at hlw
          exact heq (by rw [leadsWith_nil_right hlw, hb])
        have hbpos : (0 : ℚ) < ((normalizeQuery b).length : ℚ) := by
          have : 0 < (normalizeQuery b).length := List.length_pos.mpr hbne
          exact_mod_cast this
        have hfrac0 : (0 : ℚ) ≤ ((normalizeQuery a).length : ℚ) /
            ((normalizeQuery b).length : ℚ) :=
          div_nonneg (by exact_mod_cast Nat.zero_le _) (le_of_lt hbpos)
        have hfrac1 : ((normalizeQuery a).length : ℚ) /
            ((normalizeQuery b).length : ℚ) ≤ 1 := by
          rw [div_le_one hbpos]
          exact_mod_cast hle
        constructor
        · positivity
        · nlinarith
      · rw [if_neg hlw]
        exact levSimilarity_bounds _ _

/-- C6: similarity is always within `[0, 1]`, and any non-empty string has
similarity exactly `1` with itself (the normalized strings coincide, so the
exact-match branch fires). -/
theorem claim_C6_similarity_bounds :
    (∀ a b : List Char, 0 ≤ calculateSimilarity a b ∧
        calculateSimilarity a b ≤ 1) ∧
      (∀ x : List Char, x ≠ [] → calculateSimilarity x x = 1) := by
  constructor
  · exact similarity_bounds
  · intro x _
    rw [calculateSimilarity]
    simp

def strAloe : List Char := "Aloe Vera!".toList

theorem claim_C6_witness :
    (0 ≤ calculateSimilarity strAloe strFicus ∧
        calculateSimilarity strAloe strFicus ≤ 1) ∧
      strAloe ≠ [] ∧ calculateSimilarity strAloe strAloe = 1 :=
  ⟨claim_C6_similarity_bounds.1 strAloe strFicus,
    by decide, claim_C6_similarity_bounds.2 strAloe (by decide)⟩

/-! ### Entity Store (`PlantSearchDatabase`, `mockProvider.ts`; schema from
`migrations/0004_add_plant_search_storage.sql`)

Strings are `List Char`.  JSON-encoded columns (`common_names`,
`synonyms`, `characteristics_data`) are modelled at the structured level;
columns never inspected by any claim (`provider_data`, `taxonomy_data`,
`image_urls`, `wikipedia_url`) are omitted from the row model. -/

abbrev Str := List Char

/-- The characteristics consulted by `applyFilters`
(`localProvider.ts`); a missing field is `none` (JS `undefined`). -/
structure Characteristics where
  indoor : Option Bool := none
  outdoor : Option Bool := none
  edible : Option Bool := none
  poisonous : Option Bool := none
  difficulty : Option Str := none
  care_level : Option Str := none
  sunlight : Option Str := none
  watering : Option Str := none
  cycle : Option Str := none
  deriving DecidableEq

/-- `PlantSearchFilters` (`interface.ts`). -/
structure PSFilters where
  indoor : Option Bool := none
  outdoor : Option Bool := none
  edible : Option Bool := none
  poisonous : Option Bool := none
  difficulty : Option Str := none
  care_level : Option Str := none
  sunlight : Option Str := none
  watering : Option Str := none
  cycle : Option Str := none
  deriving DecidableEq

inductive MatchType where
  | entity_name
  | common_name
  | synonym
  deriving DecidableEq

/-- `PlantSearchEntity` (`interface.ts`), with the `details` payload
reduced to the characteristics map (the only detail field any claim
inspects). -/
structure PSEntity where
  matched_in : Str
  matched_in_type : MatchType
  access_token : Str
  match_position : Nat
  match_length : Nat
  entity_name : Str
  common_names : Option (List Str)
  synonyms : Option (List Str)
  thumbnail : Option Str
  confidence : ℚ
  provider_source : Str
  provider_id : Option Str
  characteristics : Option Characteristics
  deriving DecidableEq

/-- One row of `plant_search_entities`. -/
structure EntityRow where
  id : Nat
  entity_name : Str
  common_names : Option (List Str)
  synonyms : Option (List Str)
  provider_source : Str
  provider_id : Option Str
  characteristics : Option Characteristics
  thumbnail_url : Option Str
  gbif_id : Option Nat
  inaturalist_id : Option Nat
  created_at : Nat
  updated_at : Nat
  deriving DecidableEq

/-- The fresh `AUTOINCREMENT` rowid for an insert. -/
def nextId (table : List EntityRow) : Nat :=
  (table.foldl (fun m r => max m r.id) 0) + 1

def entityRowOf (e : PSEntity) (gbif inat : Option Nat) (rid now : Nat) :
    EntityRow :=
  { id := rid
    entity_name := e.entity_name
    common_names := e.common_names
    synonyms := e.synonyms
    provider_source := e.provider_source
    provider_id := e.provider_id
    characteristics := e.characteristics
    thumbnail_url := e.thumbnail
    gbif_id := gbif
    inaturalist_id := inat
    created_at := now
    updated_at := now }

/-- `storeEntity` (`PlantSearchDatabase`): `INSERT OR REPLACE INTO
plant_search_entities (...)`.  SQLite's `OR REPLACE` deletes only rows
that conflict with the new row on some uniqueness constraint; the table
declares none besides the `id` primary key, and the inserted row always
takes a fresh `AUTOINCREMENT` id, so the statement behaves as a plain
insert.  Returns the new table and `meta.last_row_id`. -/
def storeEntity (table : List EntityRow) (e : PSEntity)
    (gbif inat : Option Nat) (now : Nat) : List EntityRow × Nat :=
  let rid := nextId table
  let row := entityRowOf e gbif inat rid now
  ((table.filter (fun r => ¬ (r.id = rid))) ++ [row], rid)

/-- Number of stored rows with the given `(entity_name, provider_source)`
key. -/
def countKey (table : List EntityRow) (name src : Str) : Nat :=
  (table.filter (fun r => r.entity_name = name ∧ r.provider_source = src)).length

/-! ### Statistics recorder (`recordProviderStats`, `mockProvider.ts`)

The SQL is an upsert on `UNIQUE(provider_name, search_date)`.  On
conflict, every `SET` right-hand side is evaluated against the
**pre-update** row (SQL semantics), so `total_requests` and
`successful_requests` in the average formulas denote the old counters.
`avg_response_time_ms` is an `INTEGER` column, so its division is SQLite
integer division (truncating; all operands here are non-negative);
`avg_results_returned` is `REAL`, modelled as exact `Rat`.  Division by
zero yields SQL `NULL` (`none`), as does arithmetic on a `NULL` average. -/

structure StatRow where
  provider_name : Str
  search_date : Str
  total_requests : Nat
  successful_requests : Nat
  failed_requests : Nat
  avg_response_time_ms : Option Nat
  avg_results_returned : Option ℚ
  deriving DecidableEq

def recordProviderStats (table : List StatRow) (provider today : Str)
    (success : Bool) (responseTimeMs : Nat) (resultsCount : Nat) :
    List StatRow :=
  let sc : Nat := if success then 1 else 0
  let fc : Nat := if success then 0 else 1
  match table.find? (fun r => r.provider_name = provider ∧
      r.search_date = today) with
  | none =>
    table ++ [{ provider_name := provider
                search_date := today
                total_requests := 1
                successful_requests := sc
                failed_requests := fc
                avg_response_time_ms := some responseTimeMs
                avg_results_returned := some (resultsCount : ℚ) }]
  | some _ =>
    table.map (fun old =>
      if old.provider_name = provider ∧ old.search_date = today then
        { old with
          total_requests := old.total_requests + 1
          successful_requests := old.successful_requests + sc
          failed_requests := old.failed_requests + fc
          avg_response_time_ms :=
            match old.avg_response_time_ms with
            | none => none
            | some v =>
              if old.total_requests = 0 then none
              else some ((v * (old.total_requests - 1) + responseTimeMs) /
                old.total_requests)
          avg_results_returned :=
            match old.avg_results_returned with
            | none => none
            | some v =>
              if old.successful_requests = 0 then none
              else some ((v * ((old.successful_requests : ℚ) - (sc : ℚ)) +
                (resultsCount : ℚ)) / (old.successful_requests : ℚ)) }
      else old)

/-! ### Claim theorems: entity store and statistics -/

def nameFicus : Str := "Ficus lyrata".toList

def entCex : PSEntity :=
  { matched_in := nameFicus
    matched_in_type := .entity_name
    access_token := []
    match_position := 0
    match_length := 5
    entity_name := nameFicus
    common_names := some []
    synonyms := none
    thumbnail := none
    confidence := 1
    provider_source := tagGbif
    provider_id := some (toDecimal 2878688)
    characteristics := none }

/-- C7: evaluating `storeEntity` twice with the same
`(entity_name, provider_source)` leaves TWO rows for that key, not one:
`INSERT OR REPLACE` has no `UNIQUE(entity_name, provider_source)`
constraint to conflict with (the schema only declares the `id` primary
key, which is freshly auto-incremented), so the second call inserts a
duplicate instead of overwriting. -/
theorem claim_C7_store_duplicates :
    countKey
        (storeEntity (storeEntity [] entCex none none 100).1 entCex none none
          200).1 nameFicus tagGbif = 2 ∧
      ¬ countKey
          (storeEntity (storeEntity [] entCex none none 100).1 entCex none none
            200).1 nameFicus tagGbif = 1 := by
  constructor <;> decide

def dateCex : Str := "2026-10-11".toList

def statRowCex : StatRow :=
  { provider_name := tagPerenual
    search_date := dateCex
    total_requests := 1
    successful_requests := 1
    failed_requests := 0
    avg_response_time_ms := some 100
    avg_results_returned := some 3 }

/-- C9: on an existing row with `total = 1, avgRt = 100, avgRes = 3`,
recording one successful request with latency 200 and 5 results sets the
averages to 200 and 5 — the SQL `SET` expressions read the pre-update
counters, so the formula divides by the previous total (weight previous
minus one) and simply discards the old average.  The claimed formula
`(oldAvg*(n-1) + newValue)/n` with `n` the post-increment total gives 150
and 4.  The counters themselves increment correctly. -/
theorem claim_C9_stats_divergence :
    ((recordProviderStats [statRowCex] tagPerenual dateCex true 200 5).map
        (fun r => r.avg_response_time_ms) = [some 200]) ∧
      ((recordProviderStats [statRowCex] tagPerenual dateCex true 200 5).map
        (fun r => r.avg_results_returned) = [some 5]) ∧
      ((recordProviderStats [statRowCex] tagPerenual dateCex true 200 5).map
        (fun r => (r.total_requests, r.successful_requests)) = [(2, 2)]) ∧
      ((100 * (2 - 1) + 200) / 2 : Nat) = 150 ∧ ¬ (200 : Nat) = 150 := by
  refine ⟨by decide, ?_, by decide, by norm_num, by norm_num⟩
  simp only [recordProviderStats, statRowCex, List.find?, List.map]
  norm_num

/-! ### Local fuzzy search (`PlantSearchDatabase.searchLocal` and
`convertStoredEntityToSearchEntity`)

The exact phase is the SQL
`WHERE LOWER(entity_name) LIKE %q% OR LOWER(common_names) LIKE %q% OR
LOWER(synonyms) LIKE %q%` over the JSON-rendered column text, ordered by
the CASE key (exact name, then name prefix, then rest) and limited.  A
`LIKE '%q%'` test is modelled as substring containment (`%`/`_` wildcards
inside the query are not modelled; queries in the claims contain
neither).  SQL leaves the order of equal keys unspecified; the model uses
a stable insertion sort.  The FTS5 `MATCH`/`bm25` phase is SQLite-internal
machinery, modelled as an oracle function from the normalized query and
limit to rows. -/

def lowerStr (s : Str) : Str := s.map toLowerC

/-- `JSON.stringify` of a string array, for names without characters that
JSON escapes (all claim inputs). -/
def jsonStrQ (s : Str) : Str := '"' :: (s ++ ['"'])

def jsonArr (xs : List Str) : Str :=
  '[' :: (List.intercalate [','] (xs.map jsonStrQ) ++ [']'])

/-- `String.prototype.indexOf`: position of the first occurrence, `none`
for JavaScript's `-1`. -/
def idxOf (q : Str) : Str → Option Nat
  | [] => if leadsWith q [] then some 0 else none
  | s@(_ :: t) =>
    if leadsWith q s then some 0 else (idxOf q t).map (· + 1)

def rowMatches (normalized : Str) (r : EntityRow) : Bool :=
  occursIn normalized (lowerStr r.entity_name) ||
  (match r.common_names with
   | none => false
   | some xs => occursIn normalized (lowerStr (jsonArr xs))) ||
  (match r.synonyms with
   | none => false
   | some xs => occursIn normalized (lowerStr (jsonArr xs)))

/-- The `ORDER BY CASE` key: 1 for an exact name match, 2 for a name
prefix match, 3 otherwise. -/
def orderKey (normalized : Str) (r : EntityRow) : Nat :=
  if lowerStr r.entity_name = normalized then 1
  else if leadsWith normalized (lowerStr r.entity_name) then 2
  else 3

def insertByKey (key : EntityRow → Nat) (r : EntityRow) :
    List EntityRow → List EntityRow
  | [] => [r]
  | x :: xs =>
    if key r < key x then r :: x :: xs else x :: insertByKey key r xs

def sortByKey (key : EntityRow → Nat) : List EntityRow → List EntityRow
  | [] => []
  | x :: xs => insertByKey key x (sortByKey key xs)

/-- `convertStoredEntityToSearchEntity`: determine what matched and where,
regenerate a fresh access token from the row id and the stored provider
tag, and score the match.  (The `position` argument of the source function
is unused there and omitted.) -/
def convertStoredEntityToSearchEntity (stored : EntityRow)
    (originalQuery normalized : Str) (now : Nat) : PSEntity :=
  let commonNames := stored.common_names.getD []
  let synonyms := stored.synonyms.getD []
  let sel : Str × MatchType × Option Nat :=
    match idxOf normalized (lowerStr stored.entity_name) with
    | some pos => (stored.entity_name, .entity_name, some pos)
    | none =>
      match commonNames.find? (fun cn => (idxOf normalized (lowerStr cn)).isSome) with
      | some cn => (cn, .common_name, idxOf normalized (lowerStr cn))
      | none =>
        match synonyms.find? (fun sy => (idxOf normalized (lowerStr sy)).isSome) with
        | some sy => (sy, .synonym, idxOf normalized (lowerStr sy))
        | none => (stored.entity_name, .entity_name, none)
  { matched_in := sel.1
    matched_in_type := sel.2.1
    access_token := generateAccessToken stored.id stored.provider_source now
    match_position := (sel.2.2).getD 0
    match_length := originalQuery.length
    entity_name := stored.entity_name
    common_names := some commonNames
    synonyms := some synonyms
    thumbnail := stored.thumbnail_url
    confidence := calculateSimilarity normalized (lowerStr sel.1)
    provider_source := stored.provider_source
    provider_id := stored.provider_id
    characteristics := stored.characteristics }

/-- `searchLocal(query, limit)`: exact/substring phase, early return when
it fills the limit, otherwise FTS rows merged in with deduplication by row
id. -/
def searchLocal (table : List EntityRow) (fts : Str → Nat → List EntityRow)
    (query : Str) (lim : Nat) (now : Nat) : List PSEntity :=
  let normalized := normalizeQuery query
  let exactResults :=
    (sortByKey (orderKey normalized) (table.filter (rowMatches normalized))).take lim
  if lim ≤ exactResults.length then
    (exactResults.take lim).map
      (fun r => convertStoredEntityToSearchEntity r query normalized now)
  else
    let ftsResults := (fts normalized (lim - exactResults.length)).take
      (lim - exactResults.length)
    let exactIds := exactResults.map (fun r => r.id)
    let allResults := exactResults ++
      ftsResults.filter (fun r => ¬ exactIds.contains r.id)
    (allResults.take lim).map
      (fun r => convertStoredEntityToSearchEntity r query normalized now)

/-! ### Federation orchestrator (`PlantSearchFactory`, `factory.ts`, and
`LocalPlantSearchProvider.search`, `localProvider.ts`)

The provider type union and configuration of `factory.ts`.  External
adapters are environment behaviours: whether construction succeeds
(configuration errors throw), the availability probe, the search outcome
(`none` models a thrown search, caught by `tryProvider`), and the optional
detail capability.  Observable actions are collected in an event trace:
adapter construction, availability probes, search and detail calls, stat
recordings, and cache write-backs. -/

inductive PType where
  | local
  | perenual
  | gbif
  | inaturalist
  | openai
  | mock
  deriving DecidableEq

def tagOf : PType → Str
  | .local => tagLocal
  | .perenual => tagPerenual
  | .gbif => tagGbif
  | .inaturalist => tagInaturalist
  | .openai => tagOpenai
  | .mock => tagMock

/-- The cast `tokenInfo.provider as PlantSearchProviderType` followed by
the `createProvider` switch: any string that is not a known type falls to
the `default` branch, which builds the mock provider. -/
def ptypeOfTag (s : Str) : PType :=
  if s = tagLocal then .local
  else if s = tagPerenual then .perenual
  else if s = tagGbif then .gbif
  else if s = tagInaturalist then .inaturalist
  else if s = tagOpenai then .openai
  else .mock

structure PSConfig where
  perenualKey : Bool
  openaiKey : Bool
  dflt : Option PType
  degradation : Option (List PType)
  deriving DecidableEq

/-- Whether `createProvider` returns an adapter rather than throwing:
`perenual` requires the API key; `openai` always throws (missing key or
the not-implemented branch); the rest always construct. -/
def createOk (cfg : PSConfig) : PType → Bool
  | .perenual => cfg.perenualKey
  | .openai => false
  | _ => true

/-- `shouldCache()` of each adapter class (`openai` is never constructed;
its value is unreachable). -/
def shouldCache : PType → Bool
  | .local => false
  | .mock => false
  | _ => true

/-- `[config.default ?? "perenual", ...(config.degradation ?? ["gbif",
"mock"])]` (the `.filter(Boolean)` drops no typed entry). -/
def providersToTry (cfg : PSConfig) : List PType :=
  (cfg.dflt.getD .perenual) :: (cfg.degradation.getD [.gbif, .mock])

structure PSRequest where
  query : Str
  limit : Option Nat
  filters : Option PSFilters
  deriving DecidableEq

/-- `request.limit || 10`: `0` is falsy in JavaScript. -/
def reqLimit (r : PSRequest) : Nat :=
  match r.limit with
  | some n => if n = 0 then 10 else n
  | none => 10

structure PSResult where
  entities : List PSEntity
  entities_trimmed : Bool
  limit : Nat
  provider : Str
  cached : Bool
  search_time_ms : Nat
  query_normalized : Str
  total_found : Nat
  deriving DecidableEq

inductive Ev where
  | create (p : PType)
  | avail (p : PType)
  | search (p : PType)
  | stat (provider : Str) (success : Bool) (latency : Nat) (count : Nat)
  | cacheWrite (p : PType)
  | detailCall (p : PType) (token : Str)
  deriving DecidableEq

structure ExtBehavior where
  available : Bool
  probeTime : Nat
  outcome : Option PSResult
  hasDetails : Bool
  detail : Str → Option PSEntity

structure SearchEnv where
  table : List EntityRow
  fts : Str → Nat → List EntityRow
  cfg : PSConfig
  readOk : Bool
  now : Nat
  localTime : Nat
  ext : PType → ExtBehavior

/-- `applyFilters` (`localProvider.ts`): entities without a
characteristics object pass; with one, every specified filter field must
equal the characteristic (a missing characteristic field fails a specified
filter, as `undefined !== v`). -/
def applyFilters (entities : List PSEntity) : Option PSFilters → List PSEntity
  | none => entities
  | some f =>
    entities.filter (fun e =>
      match e.characteristics with
      | none => true
      | some ch =>
        (match f.indoor with | none => true | some v => ch.indoor = some v) &&
        (match f.outdoor with | none => true | some v => ch.outdoor = some v) &&
        (match f.edible with | none => true | some v => ch.edible = some v) &&
        (match f.poisonous with | none => true | some v => ch.poisonous = some v) &&
        (match f.difficulty with | none => true | some v => ch.difficulty = some v) &&
        (match f.care_level with | none => true | some v => ch.care_level = some v) &&
        (match f.sunlight with | none => true | some v => ch.sunlight = some v) &&
        (match f.watering with | none => true | some v => ch.watering = some v) &&
        (match f.cycle with | none => true | some v => ch.cycle = some v))

/-- `LocalPlantSearchProvider.search`: record the query, search the local
store, record a local stat with the unfiltered count, apply filters and
build the result.  A store failure anywhere in the `try` block (the
`recordQuery` or `searchLocal` read; `readOk = false`) takes the `catch`
path: a failed local stat and an empty result — the error is not
rethrown.  Query-table bookkeeping (`recordQuery`) has no observable
effect on any claim and is not modelled. -/
def localProviderSearch (env : SearchEnv) (req : PSRequest) :
    PSResult × List Ev :=
  let normalizedQuery := normalizeQuery req.query
  let lim := reqLimit req
  if env.readOk then
    let entities := searchLocal env.table env.fts req.query lim env.now
    let filtered := applyFilters entities req.filters
    ({ entities := filtered.take lim
       entities_trimmed := lim < filtered.length
       limit := lim
       provider := tagLocal
       cached := true
       search_time_ms := env.localTime
       query_normalized := normalizedQuery
       total_found := filtered.length },
     [Ev.stat tagLocal true env.localTime entities.length])
  else
    ({ entities := []
       entities_trimmed := false
       limit := lim
       provider := tagLocal
       cached := true
       search_time_ms := env.localTime
       query_normalized := normalizedQuery
       total_found := 0 },
     [Ev.stat tagLocal false env.localTime 0])

/-- The provider loop of `PlantSearchFactory.search`: skip `local`; a
construction failure is caught and recorded as a failed stat; an
unavailable provider records a failed stat with the probe latency; a
thrown search (`tryProvider` → `null`) records `(true, 0, 0)`; an empty
result records `(true, search_time, 0)`; the first provider with a
non-empty result records a successful stat, triggers a best-effort cache
write-back when `shouldCache()`, and terminates the loop. -/
def degradeLoop (env : SearchEnv) : List PType → Option PSResult × List Ev
  | [] => (none, [])
  | p :: rest =>
    if p = PType.local then degradeLoop env rest
    else if createOk env.cfg p then
      if (env.ext p).available then
        match (env.ext p).outcome with
        | some r =>
          if 0 < r.entities.length then
            (some r,
              [Ev.create p, Ev.avail p, Ev.search p,
               Ev.stat (tagOf p) true r.search_time_ms r.entities.length] ++
              (if shouldCache p then [Ev.cacheWrite p] else []))
          else
            let next := degradeLoop env rest
            (next.1,
              [Ev.create p, Ev.avail p, Ev.search p,
               Ev.stat (tagOf p) true r.search_time_ms 0] ++ next.2)
        | none =>
          let next := degradeLoop env rest
          (next.1,
            [Ev.create p, Ev.avail p, Ev.search p,
             Ev.stat (tagOf p) true 0 0] ++ next.2)
      else
        let next := degradeLoop env rest
        (next.1,
          [Ev.create p, Ev.avail p,
           Ev.stat (tagOf p) false (env.ext p).probeTime 0] ++ next.2)
    else
      let next := degradeLoop env rest
      (next.1, [Ev.create p, Ev.stat (tagOf p) false 0 0] ++ next.2)

/-- The all-exhausted result: `provider = "none"`, with the ad-hoc
`query.toLowerCase().trim()` normalization of that branch. -/
def noneResult (req : PSRequest) : PSResult :=
  { entities := []
    entities_trimmed := false
    limit := reqLimit req
    provider := tagNone
    cached := false
    search_time_ms := 0
    query_normalized := jsTrim (req.query.map toLowerC)
    total_found := 0 }

/-- `PlantSearchFactory.search`: local first; a non-empty local result is
returned immediately; otherwise the degradation loop, and the empty
`provider = "none"` result on exhaustion. -/
def factorySearch (env : SearchEnv) (req : PSRequest) : PSResult × List Ev :=
  let localOut := localProviderSearch env req
  if 0 < localOut.1.entities.length then localOut
  else
    let loop := degradeLoop env (providersToTry env.cfg)
    match loop.1 with
    | some r => (r, localOut.2 ++ loop.2)
    | none => (noneResult req, localOut.2 ++ loop.2)

/-- The fixed fallback list of `PlantSearchFactory.getDetails`. -/
def fallbackDetailProviders : List PType := [.inaturalist, .gbif, .perenual]

/-- The fallback chain of `getDetails`: skip the provider whose string tag
equals the token's provider, try each remaining detail-capable provider,
stop at the first success.  Fallback successes are not cached. -/
def detailFallback (env : SearchEnv) (providerStr token : Str) :
    List PType → Option PSEntity × List Ev
  | [] => (none, [])
  | q :: rest =>
    if tagOf q = providerStr then detailFallback env providerStr token rest
    else if createOk env.cfg q then
      if (env.ext q).hasDetails then
        match (env.ext q).detail token with
        | some e => (some e, [Ev.create q, Ev.detailCall q token])
        | none =>
          let next := detailFallback env providerStr token rest
          (next.1, [Ev.create q, Ev.detailCall q token] ++ next.2)
      else
        let next := detailFallback env providerStr token rest
        (next.1, [Ev.create q] ++ next.2)
    else
      let next := detailFallback env providerStr token rest
      (next.1, [Ev.create q] ++ next.2)

/-- `PlantSearchFactory.getDetails`: decode the token (`null` on failure);
create the originating provider from the decoded tag (the local-database
shortcut is commented out in the source) and, if it implements
`getDetails`, ask it first, caching a successful hydration when
`shouldCache()`; otherwise or on failure, run the fallback chain. -/
def factoryGetDetails (env : SearchEnv) (token : Str) :
    Option PSEntity × List Ev :=
  match parseAccessToken token with
  | none => (none, [])
  | some info =>
    let p := ptypeOfTag info.2
    let firstTry : Option PSEntity × List Ev :=
      if createOk env.cfg p then
        if (env.ext p).hasDetails then
          match (env.ext p).detail token with
          | some e =>
            (some e, [Ev.create p, Ev.detailCall p token] ++
              (if shouldCache p then [Ev.cacheWrite p] else []))
          | none => (none, [Ev.create p, Ev.detailCall p token])
        else (none, [Ev.create p])
      else (none, [Ev.create p])
    match firstTry.1 with
    | some e => (some e, firstTry.2)
    | none =>
      let fb := detailFallback env info.2 token fallbackDetailProviders
      (fb.1, firstTry.2 ++ fb.2)

/-! ### Lemmas and claim theorems: orchestrator -/

def cfgDefault : PSConfig :=
  { perenualKey := false, openaiKey := false, dflt := none, degradation := none }

/-- An adapter that is never available and has no detail capability. -/
def extFailAll : ExtBehavior :=
  { available := false, probeTime := 1, outcome := none, hasDetails := false
    detail := fun _ => none }

def rowCex : EntityRow :=
  { id := 1
    entity_name := nameFicus
    common_names := some []
    synonyms := none
    provider_source := tagGbif
    provider_id := some (toDecimal 7)
    characteristics := some { indoor := some false }
    thumbnail_url := none
    gbif_id := some 7
    inaturalist_id := none
    created_at := 0
    updated_at := 0 }

def qFicus : Str := "ficus".toList

def envC1 : SearchEnv :=
  { table := [rowCex]
    fts := fun _ _ => []
    cfg := cfgDefault
    readOk := true
    now := 500
    localTime := 2
    ext := fun _ => extFailAll }

def reqC1 : PSRequest :=
  { query := qFicus, limit := none, filters := some { indoor := some true } }

def reqC1nf : PSRequest :=
  { query := qFicus, limit := none, filters := none }

/-- External-adapter invocations (`createProvider`, `isAvailable`,
`search`, `getDetails`); stat recordings and cache writes are local store
operations. -/
def isExternalEv : Ev → Bool
  | .create _ => true
  | .avail _ => true
  | .search _ => true
  | .detailCall _ _ => true
  | .stat _ _ _ _ => false
  | .cacheWrite _ => false

theorem reqLimit_pos (req : PSRequest) : 0 < reqLimit req := by
  cases hq : req.limit with
  | none => simp [reqLimit, hq]
  | some n =>
    by_cases hn : n = 0 <;> simp [reqLimit, hq, hn]
    omega

theorem take_ne_nil {l : List PSEntity} {n : Nat} (hn : 0 < n) (hl : l ≠ []) :
    l.take n ≠ [] := by
  cases l with
  | nil => exact absurd rfl hl
  | cons x xs =>
    cases n with
    | zero => omega
    | succ m => simp [List.take_succ_cons]

/-- C1 (amended): when the local read succeeds and at least one locally
matched entity survives the characteristic filters, the orchestrator
returns the local result immediately — `cached = true`,
`provider = "local"`, a non-empty entity list — and the trace contains no
external-adapter invocation.  (Unconditional cache precedence fails when
filters exclude every local match; see the counterexample.) -/
theorem claim_C1_cache_precedence (env : SearchEnv) (req : PSRequest)
    (hread : env.readOk = true)
    (hfil : applyFilters
      (searchLocal env.table env.fts req.query (reqLimit req) env.now)
      req.filters ≠ []) :
    (factorySearch env req).1.cached = true ∧
      (factorySearch env req).1.provider = tagLocal ∧
      (factorySearch env req).1.entities =
        (applyFilters
          (searchLocal env.table env.fts req.query (reqLimit req) env.now)
          req.filters).take (reqLimit req) ∧
      (factorySearch env req).1.entities ≠ [] ∧
      ∀ ev ∈ (factorySearch env req).2, isExternalEv ev = false := by
  have htake := take_ne_nil (reqLimit_pos req) hfil
  have hlen : 0 < ((applyFilters
      (searchLocal env.table env.fts req.query (reqLimit req) env.now)
      req.filters).take (reqLimit req)).length :=
    List.length_pos.mpr htake
  simp only [factorySearch, localProviderSearch, hread, if_true, hlen]
  refine ⟨trivial, trivial, trivial, htake, ?_⟩
  intro ev hev
  simp only [List.mem_singleton] at hev
  subst hev
  rfl

/-- C1 counterexample: the store holds an entity matching the query
(`searchLocal` returns it), but the request carries the characteristic
filter `indoor = true` and the stored entity has `indoor = false`; the
filtered local result is empty, so the orchestrator invokes external
adapters (here: creates the default `perenual` provider) and ends with
`provider = "none"`, not the cached local result. -/
theorem claim_C1_counterexample :
    searchLocal envC1.table envC1.fts reqC1.query (reqLimit reqC1) envC1.now
        ≠ [] ∧
      (factorySearch envC1 reqC1).1.provider = tagNone ∧
      (factorySearch envC1 reqC1).1.cached = false ∧
      Ev.create PType.perenual ∈ (factorySearch envC1 reqC1).2 := by
  refine ⟨by decide, by decide, by decide, by decide⟩

theorem claim_C1_witness :
    (envC1.readOk = true ∧
        applyFilters
          (searchLocal envC1.table envC1.fts reqC1nf.query (reqLimit reqC1nf)
            envC1.now) reqC1nf.filters ≠ []) ∧
      (factorySearch envC1 reqC1nf).1.cached = true ∧
        (factorySearch envC1 reqC1nf).1.provider = tagLocal ∧
        (factorySearch envC1 reqC1nf).1.entities =
          (applyFilters
            (searchLocal envC1.table envC1.fts reqC1nf.query (reqLimit reqC1nf)
              envC1.now) reqC1nf.filters).take (reqLimit reqC1nf) ∧
        (factorySearch envC1 reqC1nf).1.entities ≠ [] ∧
        ∀ ev ∈ (factorySearch envC1 reqC1nf).2, isExternalEv ev = false :=
  ⟨⟨by decide, by decide⟩,
    claim_C1_cache_precedence envC1 reqC1nf (by decide) (by decide)⟩

/-- A provider that is "empty or unavailable" in the claim's sense: its
adapter constructs, and either the availability probe fails or the search
returns a result with no entities. -/
def failsEmptyB (env : SearchEnv) (p : PType) : Bool :=
  createOk env.cfg p &&
    (!(env.ext p).available ||
      (match (env.ext p).outcome with
       | some r => r.entities.isEmpty
       | none => false))

/-- A provider contributing nothing: construction fails, or it is
unavailable, or its search throws or returns no entities. -/
def noResultB (env : SearchEnv) (p : PType) : Bool :=
  !(createOk env.cfg p) || !(env.ext p).available ||
    (match (env.ext p).outcome with
     | some r => r.entities.isEmpty
     | none => true)

/-- Trace of one unsuccessful loop iteration for a constructible
provider. -/
def attemptStat (env : SearchEnv) (p : PType) : List Ev :=
  if (env.ext p).available then
    match (env.ext p).outcome with
    | some r => [Ev.create p, Ev.avail p, Ev.search p,
        Ev.stat (tagOf p) true r.search_time_ms 0]
    | none => [Ev.create p, Ev.avail p, Ev.search p, Ev.stat (tagOf p) true 0 0]
  else
    [Ev.create p, Ev.avail p, Ev.stat (tagOf p) false (env.ext p).probeTime 0]

/-- Trace of the winning iteration: successful stat with the observed
search time and result count, then the cache write-back when the provider
caches. -/
def successEvs (_env : SearchEnv) (p : PType) (res : PSResult) : List Ev :=
  [Ev.create p, Ev.avail p, Ev.search p,
   Ev.stat (tagOf p) true res.search_time_ms res.entities.length] ++
  (if shouldCache p then [Ev.cacheWrite p] else [])

/-- The stat recordings of a trace, in order. -/
def statEvs : List Ev → List (Str × Bool × Nat × Nat)
  | [] => []
  | Ev.stat pr s l c :: rest => (pr, s, l, c) :: statEvs rest
  | _ :: rest => statEvs rest

theorem statEvs_append : ∀ (a b : List Ev),
    statEvs (a ++ b) = statEvs a ++ statEvs b := by
  intro a
  induction a with
  | nil => intro b; rfl
  | cons e t ih =>
    intro b
    cases e <;> simp [statEvs, ih]

/-- The stat tuple of one unsuccessful iteration. -/
def statOf (env : SearchEnv) (p : PType) : Str × Bool × Nat × Nat :=
  if (env.ext p).available then
    match (env.ext p).outcome with
    | some r => (tagOf p, true, r.search_time_ms, 0)
    | none => (tagOf p, true, 0, 0)
  else (tagOf p, false, (env.ext p).probeTime, 0)

theorem statEvs_attemptStat (env : SearchEnv) (p : PType) :
    statEvs (attemptStat env p) = [statOf env p] := by
  rw [attemptStat, statOf]
  by_cases ha : (env.ext p).available = true
  · rw [if_pos ha, if_pos ha]
    cases (env.ext p).outcome <;> rfl
  · rw [if_neg ha, if_neg ha]
    rfl

theorem statOf_failed_or_empty (env : SearchEnv) (p : PType) :
    (statOf env p).2.1 = false ∨ (statOf env p).2.2.2 = 0 := by
  rw [statOf]
  by_cases ha : (env.ext p).available = true
  · rw [if_pos ha]
    cases (env.ext p).outcome <;> simp
  · rw [if_neg ha]
    simp

theorem degradeLoop_step (env : SearchEnv) {p : PType} (rest : List PType)
    (hp : p ≠ PType.local) (hf : failsEmptyB env p = true) :
    degradeLoop env (p :: rest) =
      ((degradeLoop env rest).1,
        attemptStat env p ++ (degradeLoop env rest).2) := by
  rw [failsEmptyB, Bool.and_eq_true] at hf
  obtain ⟨hco, hrest⟩ := hf
  by_cases ha : (env.ext p).available = true
  · have hout : ∃ r, (env.ext p).outcome = some r ∧ r.entities = [] := by
      rw [Bool.or_eq_true] at hrest
      rcases hrest with h | h
      · rw [Bool.not_eq_true', ha] at h
        simp at h
      · cases ho : (env.ext p).outcome with
        | none => rw [ho] at h; simp at h
        | some r =>
          rw [ho] at h
          exact ⟨r, rfl, by simpa [List.isEmpty_iff] using h⟩
    obtain ⟨r, ho, hre⟩ := hout
    simp only [degradeLoop, if_neg hp, hco, if_true, ha, ho, attemptStat, hre,
      List.length_nil, Nat.lt_irrefl, if_false]
  · have ha2 : (env.ext p).available = false := Bool.eq_false_iff.mpr ha
    simp only [degradeLoop, if_neg hp, hco, if_true, ha2, attemptStat,
      Bool.false_eq_true, if_false]

theorem degradeLoop_fails (env : SearchEnv) : ∀ (ps : List PType),
    (∀ p ∈ ps, p ≠ PType.local ∧ failsEmptyB env p = true) →
    degradeLoop env ps = (none, ps.flatMap (attemptStat env)) := by
  intro ps
  induction ps with
  | nil => intro _; rfl
  | cons p rest ih =>
    intro hall
    obtain ⟨hp, hf⟩ := hall p (by simp)
    rw [degradeLoop_step env rest hp hf,
      ih (fun q hq => hall q (by simp [hq]))]
    simp [List.flatMap_cons]

theorem degradeLoop_wins (env : SearchEnv) (pN : PType) (res : PSResult)
    (hpN : pN ≠ PType.local) (hco : createOk env.cfg pN = true)
    (hav : (env.ext pN).available = true)
    (hout : (env.ext pN).outcome = some res) (hne : res.entities ≠ []) :
    ∀ (ps : List PType),
      (∀ p ∈ ps, p ≠ PType.local ∧ failsEmptyB env p = true) →
      degradeLoop env (ps ++ [pN]) =
        (some res, ps.flatMap (attemptStat env) ++ successEvs env pN res) := by
  intro ps
  induction ps with
  | nil =>
    intro _
    have hlen : 0 < res.entities.length := List.length_pos.mpr hne
    rw [List.nil_append]
    simp only [degradeLoop, if_neg hpN, hco, if_true, hav, hout, hlen, if_pos,
      successEvs, List.flatMap_nil, List.nil_append]
  | cons p rest ih =>
    intro hall
    obtain ⟨hp, hf⟩ := hall p (by simp)
    rw [List.cons_append, degradeLoop_step env (rest ++ [pN]) hp hf,
      ih (fun q hq => hall q (by simp [hq]))]
    simp [List.flatMap_cons]

theorem degradeLoop_noResult (env : SearchEnv) : ∀ (ps : List PType),
    (∀ p ∈ ps, p = PType.local ∨ noResultB env p = true) →
    (degradeLoop env ps).1 = none := by
  intro ps
  induction ps with
  | nil => intro _; rfl
  | cons p rest ih =>
    intro hall
    have hrest := ih (fun q hq => hall q (by simp [hq]))
    by_cases hpl : p = PType.local
    · rw [degradeLoop, if_pos hpl]
      exact hrest
    · have hp : noResultB env p = true := by
        rcases hall p (by simp) with hp | hp
        · exact absurd hp hpl
        · exact hp
      rw [noResultB] at hp
      by_cases hco : createOk env.cfg p = true
      · by_cases ha : (env.ext p).available = true
        · cases ho : (env.ext p).outcome with
          | none =>
            simp only [degradeLoop, if_neg hpl, hco, if_true, ha, ho]
            simpa using hrest
          | some r =>
            simp only [hco, ha, Bool.not_true, Bool.false_or, ho] at hp
            have hre : r.entities = [] := List.isEmpty_iff.mp hp
            simp only [degradeLoop, if_neg hpl, hco, if_true, ha, ho, hre,
              List.length_nil, Nat.lt_irrefl, if_false]
            simpa using hrest
        · have ha2 : (env.ext p).available = false := Bool.eq_false_iff.mpr ha
          simp only [degradeLoop, if_neg hpl, hco, if_true, ha2,
            Bool.false_eq_true, if_false]
          simpa using hrest
      · have hco2 : createOk env.cfg p = false := Bool.eq_false_iff.mpr hco
        simp only [degradeLoop, if_neg hpl, hco2, Bool.false_eq_true, if_false]
        simpa using hrest

/-- C2: (a) degradation — after a local miss, with every earlier
configured provider empty or unavailable and the last provider returning
entities, the orchestrator walks the configured order, returns the last
provider's result unchanged, records its successful stat with the observed
search time and result count, and records exactly one (failed or
zero-result) stat per earlier provider; (b) exhaustion — if every
configured provider yields nothing, the result is empty with
`provider = "none"`. -/
theorem claim_C2_degradation :
    (∀ (env : SearchEnv) (req : PSRequest) (ps : List PType) (pN : PType)
        (res : PSResult),
      (localProviderSearch env req).1.entities = [] →
      providersToTry env.cfg = ps ++ [pN] →
      (∀ p ∈ ps, p ≠ PType.local ∧ failsEmptyB env p = true) →
      pN ≠ PType.local →
      createOk env.cfg pN = true →
      (env.ext pN).available = true →
      (env.ext pN).outcome = some res →
      res.entities ≠ [] →
      factorySearch env req =
          (res, (localProviderSearch env req).2 ++
            (ps.flatMap (attemptStat env) ++ successEvs env pN res)) ∧
        statEvs (ps.flatMap (attemptStat env) ++ successEvs env pN res) =
          ps.map (statOf env) ++
            [(tagOf pN, true, res.search_time_ms, res.entities.length)] ∧
        (ps.map (statOf env)).length = ps.length ∧
        (∀ s ∈ ps.map (statOf env), s.2.1 = false ∨ s.2.2.2 = 0)) ∧
    (∀ (env : SearchEnv) (req : PSRequest),
      (localProviderSearch env req).1.entities = [] →
      (∀ p ∈ providersToTry env.cfg, p = PType.local ∨ noResultB env p = true) →
      (factorySearch env req).1.provider = tagNone ∧
        (factorySearch env req).1.entities = []) := by
  constructor
  · intro env req ps pN res hlocal horder hfail hpN hco hav hout hne
    have hwin := degradeLoop_wins env pN res hpN hco hav hout hne ps hfail
    have hstats : ∀ qs : List PType,
        statEvs (qs.flatMap (attemptStat env)) = qs.map (statOf env) := by
      intro qs
      induction qs with
      | nil => rfl
      | cons q t ih =>
        rw [List.flatMap_cons, statEvs_append, statEvs_attemptStat, ih,
          List.map_cons]
        rfl
    refine ⟨?_, ?_, List.length_map _ _, ?_⟩
    · rw [factorySearch]
      simp only [hlocal, List.length_nil, Nat.lt_irrefl, if_false, horder, hwin]
    · rw [statEvs_append, hstats, successEvs, statEvs_append]
      have h1 : statEvs [Ev.create pN, Ev.avail pN, Ev.search pN,
          Ev.stat (tagOf pN) true res.search_time_ms res.entities.length] =
          [(tagOf pN, true, res.search_time_ms, res.entities.length)] := rfl
      have h2 : statEvs (if shouldCache pN then [Ev.cacheWrite pN] else []) =
          [] := by
        by_cases h : shouldCache pN = true
        · rw [if_pos h]; rfl
        · rw [if_neg h]; rfl
      rw [h1, h2, List.append_nil]
    · intro s hs
      obtain ⟨p, _, rfl⟩ := List.mem_map.mp hs
      exact statOf_failed_or_empty env p
  · intro env req hlocal hall
    have hnone := degradeLoop_noResult env (providersToTry env.cfg) hall
    rw [factorySearch]
    simp only [hlocal, List.length_nil, Nat.lt_irrefl, if_false]
    cases hl : (degradeLoop env (providersToTry env.cfg)).1 with
    | none => simp [noneResult]
    | some r => rw [hl] at hnone; exact absurd hnone (by simp)

def resW : PSResult :=
  { entities := [entCex]
    entities_trimmed := false
    limit := 10
    provider := tagMock
    cached := false
    search_time_ms := 7
    query_normalized := nameFicus
    total_found := 1 }

def extUnavail : ExtBehavior :=
  { available := false, probeTime := 4, outcome := none, hasDetails := false
    detail := fun _ => none }

def extMockW : ExtBehavior :=
  { available := true, probeTime := 0, outcome := some resW, hasDetails := false
    detail := fun _ => none }

def envW : SearchEnv :=
  { table := []
    fts := fun _ _ => []
    cfg := { perenualKey := false, openaiKey := false, dflt := some .gbif
             degradation := some [.mock] }
    readOk := true
    now := 0
    localTime := 1
    ext := fun p => match p with | .mock => extMockW | _ => extUnavail }

def envW2 : SearchEnv :=
  { envW with ext := fun _ => extUnavail }

def reqW : PSRequest :=
  { query := qFicus, limit := none, filters := none }

theorem claim_C2_witness :
    (factorySearch envW reqW =
        (resW, (localProviderSearch envW reqW).2 ++
          ([PType.gbif].flatMap (attemptStat envW) ++
            successEvs envW .mock resW)) ∧
      statEvs ([PType.gbif].flatMap (attemptStat envW) ++
          successEvs envW .mock resW) =
        [PType.gbif].map (statOf envW) ++
          [(tagOf .mock, true, resW.search_time_ms, resW.entities.length)] ∧
      ([PType.gbif].map (statOf envW)).length = [PType.gbif].length ∧
      (∀ s ∈ [PType.gbif].map (statOf envW), s.2.1 = false ∨ s.2.2.2 = 0)) ∧
    ((factorySearch envW2 reqW).1.provider = tagNone ∧
      (factorySearch envW2 reqW).1.entities = []) :=
  ⟨claim_C2_degradation.1 envW reqW [.gbif] .mock resW (by decide) (by decide)
      (by decide) (by decide) (by decide) (by decide) (by decide) (by decide),
    claim_C2_degradation.2 envW2 reqW (by decide) (by decide)⟩

def envC8 : SearchEnv :=
  { table := [rowCex]
    fts := fun _ _ => []
    cfg := cfgDefault
    readOk := false
    now := 9
    localTime := 5
    ext := fun _ => extFailAll }

def reqC8 : PSRequest :=
  { query := qFicus, limit := none, filters := none }

/-- C8 counterexample: the store holds an entity matching the query, the
blocking local read fails (`readOk = false`), and yet the search completes
normally — it records a failed `local` stat, proceeds to the external
chain and returns the `provider = "none"` result.  No store error reaches
the caller, contradicting "the error is propagated and the request
fails". -/
theorem claim_C8_counterexample :
    rowMatches (normalizeQuery qFicus) rowCex = true ∧
      (factorySearch envC8 reqC8).1.provider = tagNone ∧
      (factorySearch envC8 reqC8).1.entities = [] ∧
      Ev.stat tagLocal false envC8.localTime 0 ∈ (factorySearch envC8 reqC8).2 := by
  refine ⟨by decide, by decide, by decide, by decide⟩

/-- C8 (amended): a store failure during the blocking local read is
swallowed by the local provider's catch: it records a failed `local` stat
and returns an empty `cached = true` result, and the orchestrator then
proceeds with the external degradation chain exactly as on a cache miss.
Store errors are never propagated to the caller of `search` (write-back
failures are likewise swallowed). -/
theorem claim_C8_read_failure_swallowed (env : SearchEnv) (req : PSRequest)
    (h : env.readOk = false) :
    localProviderSearch env req =
        ({ entities := []
           entities_trimmed := false
           limit := reqLimit req
           provider := tagLocal
           cached := true
           search_time_ms := env.localTime
           query_normalized := normalizeQuery req.query
           total_found := 0 },
         [Ev.stat tagLocal false env.localTime 0]) ∧
      factorySearch env req =
        (((degradeLoop env (providersToTry env.cfg)).1).getD (noneResult req),
          Ev.stat tagLocal false env.localTime 0 ::
            (degradeLoop env (providersToTry env.cfg)).2) := by
  have hloc : localProviderSearch env req =
      ({ entities := []
         entities_trimmed := false
         limit := reqLimit req
         provider := tagLocal
         cached := true
         search_time_ms := env.localTime
         query_normalized := normalizeQuery req.query
         total_found := 0 },
       [Ev.stat tagLocal false env.localTime 0]) := by
    rw [localProviderSearch, h]
    rfl
  refine ⟨hloc, ?_⟩
  rw [factorySearch, hloc]
  simp only [List.length_nil, Nat.lt_irrefl, if_false]
  cases hl : (degradeLoop env (providersToTry env.cfg)).1 with
  | none => simp [hl]
  | some r => simp [hl]

theorem claim_C8_witness :
    envC8.readOk = false ∧
      localProviderSearch envC8 reqC8 =
          ({ entities := []
             entities_trimmed := false
             limit := reqLimit reqC8
             provider := tagLocal
             cached := true
             search_time_ms := envC8.localTime
             query_normalized := normalizeQuery reqC8.query
             total_found := 0 },
           [Ev.stat tagLocal false envC8.localTime 0]) ∧
        factorySearch envC8 reqC8 =
          (((degradeLoop envC8 (providersToTry envC8.cfg)).1).getD
              (noneResult reqC8),
            Ev.stat tagLocal false envC8.localTime 0 ::
              (degradeLoop envC8 (providersToTry envC8.cfg)).2) :=
  ⟨by decide, claim_C8_read_failure_swallowed envC8 reqC8 (by decide)⟩

theorem tagOf_conditions (p : PType) :
    tagOf p ≠ [] ∧ '_' ∉ tagOf p ∧ ∀ c ∈ tagOf p, c.toNat < 256 := by
  cases p <;> exact ⟨by decide, by decide, by decide⟩

theorem ptypeOfTag_tagOf (p : PType) : ptypeOfTag (tagOf p) = p := by
  cases p <;> decide

/-- C10: converting a stored row regenerates the access token at read time
from the local database row id and the stored provider tag; decoding that
token returns exactly `(row id, provider tag)` (not the provider's native
`provider_id`); and the detail path creates the originating provider first
and, when it supports detail retrieval, issues the first `getDetails` call
to it with this token. -/
theorem claim_C10_cache_token_route (env : SearchEnv) (stored : EntityRow)
    (q : Str) (p : PType)
    (htag : stored.provider_source = tagOf p)
    (hco : createOk env.cfg p = true)
    (hhd : (env.ext p).hasDetails = true) :
    (convertStoredEntityToSearchEntity stored q (normalizeQuery q)
          env.now).access_token =
        generateAccessToken stored.id stored.provider_source env.now ∧
      parseAccessToken
          (generateAccessToken stored.id stored.provider_source env.now) =
        some (stored.id, stored.provider_source) ∧
      ∃ rest,
        (factoryGetDetails env
            (generateAccessToken stored.id stored.provider_source env.now)).2 =
          Ev.create p ::
            Ev.detailCall p
              (generateAccessToken stored.id stored.provider_source env.now) ::
            rest := by
  obtain ⟨hne, hnu, hascii⟩ := tagOf_conditions p
  have hparse : parseAccessToken
      (generateAccessToken stored.id stored.provider_source env.now) =
      some (stored.id, stored.provider_source) := by
    rw [htag]
    exact parse_generate stored.id env.now (tagOf p) hne hnu hascii
  refine ⟨rfl, hparse, ?_⟩
  rw [factoryGetDetails, hparse, htag]
  simp only [ptypeOfTag_tagOf, hco, hhd, if_true]
  cases hd : (env.ext p).detail
      (generateAccessToken stored.id (tagOf p) env.now) with
  | some e =>
    by_cases hc : shouldCache p = true
    · exact ⟨[Ev.cacheWrite p], by simp [hc]⟩
    · refine ⟨[], ?_⟩
      rw [if_neg hc]
      simp
  | none =>
    refine ⟨(detailFallback env (tagOf p)
        (generateAccessToken stored.id (tagOf p) env.now)
        fallbackDetailProviders).2, ?_⟩
    simp

def rowC10 : EntityRow :=
  { id := 12
    entity_name := nameFicus
    common_names := some []
    synonyms := none
    provider_source := tagGbif
    provider_id := some (toDecimal 2878688)
    characteristics := none
    thumbnail_url := none
    gbif_id := some 2878688
    inaturalist_id := none
    created_at := 0
    updated_at := 0 }

def extGbifDet : ExtBehavior :=
  { available := true, probeTime := 0, outcome := none, hasDetails := true
    detail := fun _ => none }

def envC10 : SearchEnv :=
  { table := [rowC10]
    fts := fun _ _ => []
    cfg := cfgDefault
    readOk := true
    now := 77
    localTime := 0
    ext := fun p => match p with | .gbif => extGbifDet | _ => extFailAll }

theorem claim_C10_witness :
    (rowC10.provider_source = tagOf .gbif ∧
        createOk envC10.cfg .gbif = true ∧
        (envC10.ext .gbif).hasDetails = true) ∧
      (convertStoredEntityToSearchEntity rowC10 qFicus
            (normalizeQuery qFicus) envC10.now).access_token =
          generateAccessToken rowC10.id rowC10.provider_source envC10.now ∧
        parseAccessToken
            (generateAccessToken rowC10.id rowC10.provider_source envC10.now) =
          some (rowC10.id, rowC10.provider_source) ∧
        ∃ rest,
          (factoryGetDetails envC10
              (generateAccessToken rowC10.id rowC10.provider_source
                envC10.now)).2 =
            Ev.create .gbif ::
              Ev.detailCall .gbif
                (generateAccessToken rowC10.id rowC10.provider_source
                  envC10.now) ::
              rest :=
  ⟨⟨by decide, by decide, by decide⟩,
    claim_C10_cache_token_route envC10 rowC10 qFicus .gbif (by decide)
      (by decide) (by decide)⟩

end PlantBackend
